import Mathlib

/-! # HTTP basic authentication against a flat credential file

A shallow embedding of `src/http/modules/ngx_http_auth_basic_module.c`.

* Bytes (`u_char`) are natural numbers; byte strings are `List Nat`.
* `ngx_uint_t` / `size_t` / `off_t` values are natural numbers.  The subtractions
  of the source (`i - passwd`, `left + n - passwd`, `2048 - left`) are written
  with truncated subtraction; `scan_loop` keeps them from underflowing.
* A `ngx_chain_t *` is a list of links (`NULL` is `[]`); the `buf` pointer of a
  link is an `Option` (`NULL` is `none`).  Dereferencing `NULL` is `Run.fault`.
* Loops that wait for the operating system take a fuel argument; running out
  of fuel is `Run.out_of_fuel`, which is not a result of the program.
* The operating system, the pool allocator, the request decoder and `ngx_crypt`
  are collaborators whose behaviour is a parameter of the request.
-/

namespace AuthBasic

/-! ## Constants -/

/-- The size of the working buffer, `#define NGX_HTTP_AUTH_BUF_SIZE  2048`. -/
def NGX_HTTP_AUTH_BUF_SIZE : Nat := 2048

/-- Carriage return, `CR` of `ngx_core.h`. -/
def CR : Nat := 13

/-- Line feed, `LF` of `ngx_core.h`. -/
def LF : Nat := 10

/-- The byte `:`. -/
def COLON : Nat := 58

/-- The byte `#`. -/
def HASH : Nat := 35

/-- Return code `NGX_OK` of `ngx_core.h`. -/
def NGX_OK : Int := 0

/-- Return code `NGX_ERROR` of `ngx_core.h`. -/
def NGX_ERROR : Int := -1

/-- Return code `NGX_DECLINED` of `ngx_core.h`. -/
def NGX_DECLINED : Int := -5

/-- Modelled from the spec: the status of a challenge, 401. -/
def NGX_HTTP_UNAUTHORIZED : Int := 401

/-- Modelled from the spec: the status of a missing credential file, 403. -/
def NGX_HTTP_FORBIDDEN : Int := 403

/-- Modelled from the spec: the status of an internal error, 500. -/
def NGX_HTTP_INTERNAL_SERVER_ERROR : Int := 500

/-- The error number `ENOENT`. -/
def NGX_ENOENT : Nat := 2

/-- The error number `ENOMEM`. -/
def NGX_ENOMEM : Nat := 12

/-- The bytes of a string literal. -/
def bytes (s : String) : List Nat := s.toList.map Char.toNat

/-- The C string that starts at a pointer: the bytes before the first NUL. -/
def cstr (mem : List Nat) : List Nat := mem.takeWhile (fun c => c != 0)

/-! ## Outcomes of a run -/

/-- The outcome of running a piece of the program. -/
inductive Run (α : Type) where
  /-- A `NULL` pointer was dereferenced. -/
  | fault : Run α
  /-- The fuel of the model ran out; the program itself has not returned. -/
  | out_of_fuel : Run α
  /-- The program returned. -/
  | ret : α → Run α
deriving DecidableEq, Repr

/-- Sequencing of runs. -/
def Run.bind {α β : Type} (x : Run α) (f : α → Run β) : Run β :=
  match x with
  | .fault => .fault
  | .out_of_fuel => .out_of_fuel
  | .ret a => f a

/-- An observation of the value a run returned. -/
def Run.map {α β : Type} (f : α → β) (x : Run α) : Run β :=
  x.bind fun a => .ret (f a)

/-! ## Collaborators -/

/-- Modelled from the spec: an open file as `read_file(fd, offset, buf) -> n | Error`
sees it.  `content` holds the bytes of the file.  `plan` says how the next calls
of `ngx_read_file` behave: `none` is a failed read, `some k` is a read that
delivers at most `k` bytes; once the plan is used up every read delivers as
many bytes as were asked for and are left. -/
structure ngx_file_t where
  fd : Nat
  name : List Nat
  content : List Nat
  plan : List (Option Nat)

/-- Modelled from the spec: `read_file(fd, offset, buf) -> n | Error`, the
positioned read `ngx_read_file(file, buf, size, offset)`.  The first component
is `none` for `NGX_ERROR` and otherwise the bytes stored at `buf` (their number
is the returned `n`). -/
def ngx_read_file (f : ngx_file_t) (size offset : Nat) : Option (List Nat) × ngx_file_t :=
  match f.plan with
  | [] => (some ((f.content.drop offset).take size), f)
  | none :: rest => (none, { f with plan := rest })
  | some k :: rest => (some ((f.content.drop offset).take (min size k)), { f with plan := rest })

/-- Modelled from the spec: the pool allocator.  The list holds the outcome of
the next allocations (`false` is a `NULL` result); an empty list allocates
successfully. -/
abbrev ngx_pool_t := List Bool

/-- One allocation from the pool: whether it succeeded, and the pool afterwards. -/
def ngx_pool_alloc (pool : ngx_pool_t) : Bool × ngx_pool_t :=
  match pool with
  | [] => (true, [])
  | ok :: rest => (ok, rest)

/-! ## The cached chain -/

/-- A `ngx_chain_t *`.  `[]` is `NULL`; a link is its `buf` (`none` is a `NULL`
buffer, `some b` a buffer whose bytes between `start` and `end` are `b`)
followed by the chain at `next`. -/
abbrev ngx_chain_ptr := List (Option (List Nat))

/-- The `ngx_chain_t` struct stored by value in the location configuration. -/
structure ngx_chain_t where
  buf : Option (List Nat)
  next : ngx_chain_ptr
deriving DecidableEq, Repr

/-- The address of a chain struct, `&alcf->cache`. -/
def ngx_chain_t.addr (c : ngx_chain_t) : ngx_chain_ptr := c.buf :: c.next

/-- What `read_text_from_file` appends to: the chain `chain_out` points into. -/
def chain_append (c : ngx_chain_t) (p : List Nat) : ngx_chain_t :=
  { c with next := c.next ++ [some p] }

/-- The read loop of `read_text_from_file` (lines 123-169).  `chain` is the chain
the caller provided, `file` the open file, `offset` the read position.  The
result is `rc` and the chain.  The source tests `chain_out->buf` on the last
link; the last link has a buffer exactly when the first one has. -/
def read_text_loop : Nat → ngx_pool_t → ngx_file_t → Nat → ngx_chain_t → Run (Int × ngx_chain_t)
  | 0, _, _, _, _ => .out_of_fuel
  | fuel + 1, pool, file, offset, chain =>
    match ngx_read_file file NGX_HTTP_AUTH_BUF_SIZE offset with
    | (none, _) => .ret (NGX_ERROR, chain)
    | (some buf, file1) =>
      if buf.length = 0 then .ret (NGX_OK, chain)
      else
        match ngx_pool_alloc pool with
        | (false, _) => .ret (Int.ofNat NGX_ENOMEM, chain)
        | (true, pool1) =>
          match chain.buf with
          | none =>
            read_text_loop fuel pool1 file1 (offset + buf.length) { chain with buf := some buf }
          | some _ =>
            match ngx_pool_alloc pool1 with
            | (false, _) => .ret (Int.ofNat NGX_ENOMEM, chain)
            | (true, pool2) =>
              read_text_loop fuel pool2 file1 (offset + buf.length) (chain_append chain buf)

/-- The function `read_text_from_file` (lines 89-178).  `chain_out` is `none` for a
`NULL` pointer; `opened` is the result of `ngx_open_file` on the file name. -/
def read_text_from_file (fuel : Nat) (pool : ngx_pool_t) (opened : Except Nat ngx_file_t)
    (chain_out : Option ngx_chain_t) : Run (Int × ngx_chain_t) :=
  match chain_out with
  | none => .ret (NGX_ERROR, { buf := none, next := [] })
  | some chain =>
    if chain.buf.isSome || !chain.next.isEmpty then .ret (NGX_ERROR, chain)
    else
      match opened with
      | .error _ => .ret (Int.ofNat NGX_ENOENT, chain)
      | .ok file => read_text_loop fuel pool file 0 chain

/-! ## Configuration and request -/

/-- A compiled complex value.  `value` is `none` when `value.data` is `NULL`;
`lengths` is `none` for a static value and otherwise names the script that
evaluates the value for a request. -/
structure ngx_http_complex_value_t where
  value : Option (List Nat)
  lengths : Option Nat

/-- The location configuration `ngx_http_auth_basic_loc_conf_t`. -/
structure ngx_http_auth_basic_loc_conf_t where
  realm : Option ngx_http_complex_value_t
  user_file : ngx_http_complex_value_t
  cache : ngx_chain_t

/-- Modelled from the spec: the result of `decode_basic_credentials(request) ->
(username, password) | absent | malformed`, the call `ngx_http_auth_basic_user(r)`.
`declined` is `NGX_DECLINED`, `error` is `NGX_ERROR`, `ok user passwd` is
`NGX_OK` with `r->headers_in.user` and `r->headers_in.passwd` set. -/
inductive basic_user_t where
  | declined : basic_user_t
  | error : basic_user_t
  | ok : List Nat → List Nat → basic_user_t

/-- An element of the response header list. -/
structure ngx_table_elt_t where
  hash : Nat
  key : List Nat
  value : List Nat
deriving DecidableEq, Repr

/-- The messages the module writes to the error log. -/
inductive log_msg where
  | no_user_password : log_msg
  | open_failed : Nat → List Nat → log_msg
  | user_not_found : List Nat → List Nat → log_msg
  | password_mismatch : List Nat → log_msg
deriving DecidableEq, Repr

/-- The request `ngx_http_request_t` with the collaborators it reaches.  The
first group of fields is the behaviour of the collaborators for this request,
the second group is the state the handler changes. -/
structure ngx_http_request_t where
  /-- The result of `ngx_http_auth_basic_user(r)`. -/
  auth_basic_user : basic_user_t
  /-- The primitive `ngx_crypt(pool, key, salt, &encrypted)` on C strings:
  `none` when it fails, otherwise the encrypted C string. -/
  ngx_crypt : List Nat → List Nat → Option (List Nat)
  /-- The value of a script for this request, `none` when evaluation fails. -/
  script : Nat → Option (List Nat)
  /-- The result of `ngx_open_file` on a path: an error number or the file. -/
  open_file : List Nat → Except Nat ngx_file_t
  /-- The file behind descriptor 0, the descriptor of a zeroed `ngx_file_t`. -/
  fd0 : ngx_file_t
  /-- The pool `r->pool`. -/
  pool : ngx_pool_t
  /-- The list `r->headers_out.headers`. -/
  headers : List ngx_table_elt_t
  /-- The pointer `r->headers_out.www_authenticate` (`none` is `NULL`). -/
  www_authenticate : Option ngx_table_elt_t
  /-- The error log, oldest message first. -/
  log : List log_msg
  /-- The descriptors closed so far. -/
  closed : List Nat
  /-- The calls of `ngx_crypt` so far, as (key, salt) C strings. -/
  crypt_calls : List (List Nat × List Nat)

/-- The bytes of `r->headers_in.user`. -/
def ngx_http_request_t.user (r : ngx_http_request_t) : List Nat :=
  match r.auth_basic_user with
  | .ok user _ => user
  | _ => []

/-- The bytes of `r->headers_in.passwd`. -/
def ngx_http_request_t.passwd (r : ngx_http_request_t) : List Nat :=
  match r.auth_basic_user with
  | .ok _ passwd => passwd
  | _ => []

/-- Modelled from the spec: the memory at `r->headers_in.user.data`.  The decoder
leaves the decoded credentials `user:passwd` in one buffer followed by a NUL, so
the byte stored directly after the username is the delimiter `:`. -/
def ngx_http_request_t.user_data (r : ngx_http_request_t) : List Nat :=
  r.user ++ COLON :: (r.passwd ++ [0])

/-- The memory at `r->headers_in.passwd.data`: the password followed by a NUL. -/
def ngx_http_request_t.passwd_data (r : ngx_http_request_t) : List Nat :=
  r.passwd ++ [0]

/-- Modelled from the spec: `evaluate_template(expr, request) -> string`, the call
`ngx_http_complex_value(r, val, &value)`; a static value is passed through. -/
def ngx_http_complex_value (r : ngx_http_request_t) (val : ngx_http_complex_value_t) :
    Option (List Nat) :=
  match val.lengths with
  | none => some (val.value.getD [])
  | some s => r.script s

/-! ## The credential source -/

/-- The context `auth_file_ctx_t` (the fields for internal use). -/
structure auth_file_ctx_t where
  file : ngx_file_t
  chain : ngx_chain_ptr
  offset : Nat

/-- A zeroed `ngx_file_t`: descriptor 0 and no name, backed by the file that
descriptor 0 stands for. -/
def zeroed_file (r : ngx_http_request_t) : ngx_file_t :=
  { r.fd0 with fd := 0, name := [] }

/-- The function `init_auth_file` (lines 191-234): the return code, the request
(with its log) and the context. -/
def init_auth_file (r : ngx_http_request_t) (alcf : ngx_http_auth_basic_loc_conf_t) :
    Int × ngx_http_request_t × auth_file_ctx_t :=
  let ctx : auth_file_ctx_t := { file := zeroed_file r, chain := [], offset := 0 }
  match alcf.user_file.lengths with
  | none =>
    (NGX_OK, r, { ctx with
      chain := alcf.cache.addr,
      file := { ctx.file with name := alcf.user_file.value.getD [] } })
  | some _ =>
    match ngx_http_complex_value r alcf.user_file with
    | none => (NGX_ERROR, r, ctx)
    | some user_file =>
      match r.open_file user_file with
      | .error err =>
        let rc := if err = NGX_ENOENT then NGX_HTTP_FORBIDDEN else NGX_HTTP_INTERNAL_SERVER_ERROR
        (rc, { r with log := r.log ++ [log_msg.open_failed err user_file] }, ctx)
      | .ok file => (NGX_OK, r, { ctx with file := { file with name := user_file } })

/-- The chain walk of `read_auth_file` (lines 246-261).  `out` holds the bytes
stored at `buf_out` so far (`p` is `buf_out + out.length`, `n` is `out.length`).
The result is the bytes stored, the final `cl` and the final `offset`. -/
def read_auth_chain : ngx_chain_ptr → Nat → Nat → List Nat → Run (List Nat × ngx_chain_ptr × Nat)
  | [], offset, _, out => .ret (out, [], offset)
  | none :: _, _, _, _ => .fault
  | some buf :: next, offset, size, out =>
    let remaining := buf.length - offset
    if size ≤ remaining then
      .ret (out ++ buf.take size, some buf :: next, offset + size)
    else
      read_auth_chain next 0 (size - remaining) (out ++ buf.take remaining)

/-- The function `read_auth_file` (lines 236-274).  The result is `none` for
`NGX_ERROR` and otherwise the bytes stored at `buf_out` (their number is the
returned `n`), with the context afterwards. -/
def read_auth_file (alcf : ngx_http_auth_basic_loc_conf_t) (ctx : auth_file_ctx_t) (size : Nat) :
    Run (Option (List Nat) × auth_file_ctx_t) :=
  match alcf.user_file.lengths with
  | none =>
    (read_auth_chain ctx.chain ctx.offset size []).bind fun (out, cl, offset) =>
      .ret (some out, { ctx with chain := cl, offset := offset })
  | some _ =>
    match ngx_read_file ctx.file size ctx.offset with
    | (none, file) => .ret (none, { ctx with file := file })
    | (some out, file) => .ret (some out, { ctx with file := file, offset := ctx.offset + out.length })

/-- The function `cleanup_auth_file` (lines 276-288): the cached source has
nothing to release, the file source closes its descriptor. -/
def cleanup_auth_file (r : ngx_http_request_t) (alcf : ngx_http_auth_basic_loc_conf_t)
    (ctx : auth_file_ctx_t) : ngx_http_request_t :=
  match alcf.user_file.lengths with
  | none => r
  | some _ => { r with closed := r.closed ++ [ctx.file.fd] }

/-! ## Challenge and verifier -/

/-- The function `ngx_http_auth_basic_set_realm` (lines 482-512). -/
def ngx_http_auth_basic_set_realm (r : ngx_http_request_t) (realm : List Nat) :
    Int × ngx_http_request_t :=
  match ngx_pool_alloc r.pool with
  | (false, pool1) =>
    (NGX_HTTP_INTERNAL_SERVER_ERROR, { r with pool := pool1, www_authenticate := none })
  | (true, pool1) =>
    let len := (bytes "Basic realm=\"\"").length + realm.length
    match ngx_pool_alloc pool1 with
    | (false, pool2) =>
      (NGX_HTTP_INTERNAL_SERVER_ERROR,
        { r with pool := pool2,
                 headers := r.headers ++ [{ hash := 0, key := [], value := [] }],
                 www_authenticate := none })
    | (true, pool2) =>
      let basic := (bytes "Basic realm=\"" ++ realm ++ bytes "\"").take len
      let elt : ngx_table_elt_t := { hash := 1, key := bytes "WWW-Authenticate", value := basic }
      (NGX_HTTP_UNAUTHORIZED,
        { r with pool := pool2, headers := r.headers ++ [elt], www_authenticate := some elt })

/-- The function `ngx_http_auth_basic_crypt_handler` (lines 449-479).  `passwd_data`
is the memory at `passwd->data`; `ngx_crypt` and `ngx_strcmp` read it as a
C string. -/
def ngx_http_auth_basic_crypt_handler (r : ngx_http_request_t) (passwd_data : List Nat)
    (realm : List Nat) : Int × ngx_http_request_t :=
  let key := cstr r.passwd_data
  let salt := cstr passwd_data
  let r1 := { r with crypt_calls := r.crypt_calls ++ [(key, salt)] }
  match r.ngx_crypt key salt with
  | none => (NGX_HTTP_INTERNAL_SERVER_ERROR, r1)
  | some encrypted =>
    if cstr encrypted = salt then (NGX_OK, r1)
    else
      ngx_http_auth_basic_set_realm
        { r1 with log := r1.log ++ [log_msg.password_mismatch r.user] } realm

/-! ## The scanner -/

/-- The states of the scanner, `enum { sw_login, sw_passwd, sw_skip }`. -/
inductive scan_state where
  | sw_login : scan_state
  | sw_passwd : scan_state
  | sw_skip : scan_state
deriving DecidableEq, Repr

/-- The variables `state`, `login` and `passwd` of the handler. -/
structure scan_vars where
  state : scan_state
  login : Nat
  passwd : Nat
deriving DecidableEq, Repr

/-- One pass through the `switch (state)` of the handler (lines 359-408) for the
byte `c = buf[i]`.  `ud` is the memory at `r->headers_in.user.data` and `ulen`
is `r->headers_in.user.len`.  The result is `none` when the password field ends
at this byte (the branch that calls the verifier and leaves the loop) and
otherwise the variables after the pass. -/
def scan_switch (ud : List Nat) (ulen : Nat) (c i : Nat) (v : scan_vars) : Option scan_vars :=
  match v.state with
  | .sw_login =>
    if v.login = 0 ∧ (c = HASH ∨ c = CR) then some { v with state := .sw_skip }
    else if v.login = 0 ∧ c = LF then some v
    else if c ≠ ud.getD v.login 0 then some { v with state := .sw_skip }
    else if v.login = ulen then some { state := .sw_passwd, passwd := i + 1, login := v.login + 1 }
    else some { v with login := v.login + 1 }
  | .sw_passwd =>
    if c = LF ∨ c = CR ∨ c = COLON then none else some v
  | .sw_skip =>
    if c = LF then some { v with state := .sw_login, login := 0 } else some v

/-- How the inner `for` loop ends. -/
inductive chunk_exit where
  /-- The password field ended at `buf[i]`; `passwd` is its first index. -/
  | found : Nat → Nat → chunk_exit
  /-- The loop ran to `left + n`; the final `i` and the variables. -/
  | fell_through : Nat → scan_vars → chunk_exit
deriving DecidableEq, Repr

/-- The inner loop `for (i = left; i < left + n; i++)` (lines 358-409); the first
argument is the number of indices still to visit, `left + n - i`. -/
def scan_chunk (ud : List Nat) (ulen : Nat) (buf : List Nat) : Nat → Nat → scan_vars → chunk_exit
  | 0, i, v => .fell_through i v
  | k + 1, i, v =>
    match scan_switch ud ulen (buf.getD i 0) i v with
    | none => .found i v.passwd
    | some v1 => scan_chunk ud ulen buf k (i + 1) v1

/-- Storing `data` at `buf + off`, as `ngx_memcpy` and `ngx_memmove` do. -/
def write_at (buf : List Nat) (off : Nat) (data : List Nat) : List Nat :=
  buf.take off ++ data ++ buf.drop (off + data.length)

/-- How the read loop `for ( ;; )` of the handler ends. -/
inductive loop_exit where
  /-- The call `read_auth_file` returned `NGX_ERROR`. -/
  | read_error : loop_exit
  /-- The password field ended inside the loop: `pwd.len` and the memory at
  `pwd.data`, which is `&buf[passwd]` after `buf[i] = 0`. -/
  | found : Nat → List Nat → loop_exit
  /-- The call `read_auth_file` returned 0: the final `i` and the variables. -/
  | end_of_data : Nat → scan_vars → loop_exit
deriving DecidableEq, Repr

/-- The result of the read loop: how it ended, the context and the buffer. -/
structure loop_result where
  exit : loop_exit
  ctx : auth_file_ctx_t
  buf : List Nat

/-- The read loop `for ( ;; )` of the handler (lines 343-419), from the top of an
iteration with the given context, buffer, `left` and scanner variables. -/
def scan_loop (alcf : ngx_http_auth_basic_loc_conf_t) (ud : List Nat) (ulen : Nat) :
    Nat → auth_file_ctx_t → List Nat → Nat → scan_vars → Run loop_result
  | 0, _, _, _, _ => .out_of_fuel
  | fuel + 1, ctx, buf, left, v =>
    match read_auth_file alcf ctx (NGX_HTTP_AUTH_BUF_SIZE - left) with
    | .fault => .fault
    | .out_of_fuel => .out_of_fuel
    | .ret (none, ctx1) => .ret { exit := .read_error, ctx := ctx1, buf := buf }
    | .ret (some data, ctx1) =>
      let n := data.length
      let buf1 := write_at buf left data
      if n = 0 then .ret { exit := .end_of_data left v, ctx := ctx1, buf := buf1 }
      else
        match scan_chunk ud ulen buf1 n left v with
        | .found i passwd =>
          let buf2 := buf1.set i 0
          .ret { exit := .found (i - passwd) (buf2.drop passwd), ctx := ctx1, buf := buf2 }
        | .fell_through _ v1 =>
          if v1.state = .sw_passwd then
            let left1 := left + n - v1.passwd
            let buf2 := write_at buf1 0 ((buf1.drop v1.passwd).take left1)
            scan_loop alcf ud ulen fuel ctx1 buf2 left1 { v1 with passwd := 0 }
          else
            scan_loop alcf ud ulen fuel ctx1 buf1 0 v1

/-- The copy `ngx_cpystrn(dst, src, n)`: at most `n - 1` bytes of the C string
at `src`, followed by a NUL. -/
def ngx_cpystrn (src : List Nat) (n : Nat) : List Nat :=
  if n = 0 then [] else cstr (src.take (n - 1)) ++ [0]

/-! ## The handler -/

/-- What the handler leaves behind: the return code, the request and the
contents of the working buffer `buf`. -/
structure handler_result where
  rc : Int
  r : ngx_http_request_t
  buf : List Nat

/-- The label `cleanup:` of the handler (lines 440-445). -/
def handler_cleanup (rc : Int) (r : ngx_http_request_t) (alcf : ngx_http_auth_basic_loc_conf_t)
    (ctx : auth_file_ctx_t) : handler_result :=
  { rc := rc,
    r := cleanup_auth_file r alcf ctx,
    buf := List.replicate NGX_HTTP_AUTH_BUF_SIZE 0 }

/-- The handler from the end of the read loop on (lines 349-352, 389-397 and
421-445). -/
def handler_finish (r : ngx_http_request_t) (alcf : ngx_http_auth_basic_loc_conf_t)
    (realm : List Nat) (res : loop_result) : handler_result :=
  match res.exit with
  | .read_error => handler_cleanup NGX_HTTP_INTERNAL_SERVER_ERROR r alcf res.ctx
  | .found _ pwd_data =>
    let (rc, r1) := ngx_http_auth_basic_crypt_handler r pwd_data realm
    handler_cleanup rc r1 alcf res.ctx
  | .end_of_data i v =>
    if v.state = .sw_passwd then
      let pwd_len := i - v.passwd
      match ngx_pool_alloc r.pool with
      | (false, pool1) =>
        { rc := NGX_HTTP_INTERNAL_SERVER_ERROR, r := { r with pool := pool1 }, buf := res.buf }
      | (true, pool1) =>
        let pwd_data := ngx_cpystrn (res.buf.drop v.passwd) (pwd_len + 1)
        let (rc, r1) := ngx_http_auth_basic_crypt_handler { r with pool := pool1 } pwd_data realm
        handler_cleanup rc r1 alcf res.ctx
    else
      let r1 := { r with log := r.log ++ [log_msg.user_not_found r.user res.ctx.file.name] }
      let (rc, r2) := ngx_http_auth_basic_set_realm r1 realm
      handler_cleanup rc r2 alcf res.ctx

/-- The function `ngx_http_auth_basic_handler` (lines 290-446).  `buf` is the
working buffer as the handler finds it on its stack. -/
def ngx_http_auth_basic_handler (fuel : Nat) (r : ngx_http_request_t)
    (alcf : ngx_http_auth_basic_loc_conf_t) (buf : List Nat) : Run handler_result :=
  match alcf.realm, alcf.user_file.value with
  | none, _ => .ret { rc := NGX_DECLINED, r := r, buf := buf }
  | some _, none => .ret { rc := NGX_DECLINED, r := r, buf := buf }
  | some realm_val, some _ =>
    match ngx_http_complex_value r realm_val with
    | none => .ret { rc := NGX_ERROR, r := r, buf := buf }
    | some realm =>
      if realm.length = 3 ∧ realm.take 3 = bytes "off" then
        .ret { rc := NGX_DECLINED, r := r, buf := buf }
      else
        match r.auth_basic_user with
        | .declined =>
          let (rc, r1) :=
            ngx_http_auth_basic_set_realm { r with log := r.log ++ [log_msg.no_user_password] } realm
          .ret { rc := rc, r := r1, buf := buf }
        | .error => .ret { rc := NGX_HTTP_INTERNAL_SERVER_ERROR, r := r, buf := buf }
        | .ok _ _ =>
          let (_, r1, ctx) := init_auth_file r alcf
          match scan_loop alcf r.user_data r.user.length fuel ctx buf 0
              { state := .sw_login, login := 0, passwd := 0 } with
          | .fault => .fault
          | .out_of_fuel => .out_of_fuel
          | .ret res => .ret (handler_finish r1 alcf realm res)

/-- The function `ngx_http_auth_basic_merge_loc_conf` (lines 529-550): `none` is
`NGX_CONF_ERROR`, otherwise the merged child configuration.  `opened` is the
result of `ngx_open_file` on the child's file name. -/
def ngx_http_auth_basic_merge_loc_conf (fuel : Nat) (pool : ngx_pool_t)
    (opened : Except Nat ngx_file_t) (prev conf : ngx_http_auth_basic_loc_conf_t) :
    Run (Option ngx_http_auth_basic_loc_conf_t) :=
  let conf1 := if conf.realm.isNone then { conf with realm := prev.realm } else conf
  match conf1.user_file.value with
  | none => .ret (some { conf1 with user_file := prev.user_file })
  | some _ =>
    match conf1.user_file.lengths with
    | some _ => .ret (some conf1)
    | none =>
      (read_text_from_file fuel pool opened (some conf1.cache)).bind fun (rc, cache) =>
        if rc ≠ NGX_OK then .ret none else .ret (some { conf1 with cache := cache })

/-! ## Verdicts and the scanner of the specification -/

/-- The verdict of one scan over the credential store. -/
inductive Verdict where
  | Matched : List Nat → Verdict
  | NoSuchUser : Verdict
  | ReadError : Verdict
deriving DecidableEq, Repr

/-- The verdict the read loop of the handler has reached: the extracted hash is
the `pwd.len` bytes at `pwd.data` (inside the loop) or at `&buf[passwd]` (after
the loop, before they are copied). -/
def verdict_of (res : loop_result) : Verdict :=
  match res.exit with
  | .read_error => .ReadError
  | .found pwd_len pwd_data => .Matched (pwd_data.take pwd_len)
  | .end_of_data i v =>
    if v.state = .sw_passwd then .Matched ((res.buf.drop v.passwd).take (i - v.passwd))
    else .NoSuchUser

/-- The scanner variables at the start of a lookup (lines 338-341). -/
def scan_init : scan_vars := { state := .sw_login, login := 0, passwd := 0 }

/-- The verdict of the lookup the handler makes once credentials are decoded:
the source is opened and the read loop is run from its initial state. -/
def lookup_verdict (fuel : Nat) (r : ngx_http_request_t) (alcf : ngx_http_auth_basic_loc_conf_t)
    (buf : List Nat) : Run Verdict :=
  (scan_loop alcf r.user_data r.user.length fuel (init_auth_file r alcf).2.2 buf 0 scan_init).map
    verdict_of

/-- The bytes that end a password field: LF, CR and `:`. -/
def is_terminator (c : Nat) : Bool := c == LF || c == CR || c == COLON

/-- The scan states of the specification. -/
inductive ScanState where
  | MatchingUsername : Nat → ScanState
  | ExtractingPassword : ScanState
  | SkippingLine : ScanState
deriving DecidableEq, Repr

/-- The line scanner as the specification words it (section 4.3), run over the
whole input as one chunk with no bound on the field.  `acc` holds the bytes
accumulated in `ExtractingPassword`. -/
def LineScanner (target_username : List Nat) : ScanState → List Nat → List Nat → Verdict
  | .MatchingUsername _, _, [] => .NoSuchUser
  | .SkippingLine, _, [] => .NoSuchUser
  | .ExtractingPassword, acc, [] => .Matched acc
  | .ExtractingPassword, acc, c :: cs =>
    if is_terminator c then .Matched acc
    else LineScanner target_username .ExtractingPassword (acc ++ [c]) cs
  | .SkippingLine, acc, c :: cs =>
    if c = LF then LineScanner target_username (.MatchingUsername 0) acc cs
    else LineScanner target_username .SkippingLine acc cs
  | .MatchingUsername k, acc, c :: cs =>
    if k = 0 ∧ (c = HASH ∨ c = CR) then LineScanner target_username .SkippingLine acc cs
    else if k = 0 ∧ c = LF then LineScanner target_username (.MatchingUsername 0) acc cs
    else if c ≠ (target_username ++ [COLON]).getD k 0 then
      LineScanner target_username .SkippingLine acc cs
    else if k = target_username.length then LineScanner target_username .ExtractingPassword [] cs
    else LineScanner target_username (.MatchingUsername (k + 1)) acc cs

/-- Scanning a credential file as one chunk, from the initial state. -/
def scan_one_chunk (target_username content : List Nat) : Verdict :=
  LineScanner target_username (.MatchingUsername 0) [] content

/-- A verdict whose hash is cut to the capacity of the working buffer. -/
def Verdict.truncate (v : Verdict) : Verdict :=
  match v with
  | .Matched h => .Matched (h.take NGX_HTTP_AUTH_BUF_SIZE)
  | .NoSuchUser => .NoSuchUser
  | .ReadError => .ReadError

/-- Lines joined into the bytes of a file, each line followed by LF. -/
def unlines : List (List Nat) → List Nat
  | [] => []
  | l :: ls => l ++ LF :: unlines ls

/-- The challenge `Basic realm="<realm>"` as a header element. -/
def challenge (realm : List Nat) : ngx_table_elt_t :=
  { hash := 1, key := bytes "WWW-Authenticate",
    value := bytes "Basic realm=\"" ++ realm ++ bytes "\"" }

/-! ## Invariants of the scan -/

/-- The bytes of the buffer between the index `passwd` and the index `i`. -/
def field_of (buf : List Nat) (passwd i : Nat) : List Nat :=
  (buf.drop passwd).take (i - passwd)

/-- The invariant of the scan at index `i` of the buffer: `consumed` are the
bytes of the store visited so far, `stream` the bytes still to come, and `T`
the verdict of the one-chunk scanner for the whole store. -/
def scan_inv (user : List Nat) (T : Verdict) (consumed buf : List Nat) (i : Nat) (v : scan_vars)
    (stream : List Nat) : Prop :=
  match v.state with
  | .sw_login =>
    v.login ≤ user.length
      ∧ T = LineScanner user (.MatchingUsername v.login) [] stream
      ∧ ∃ pre, consumed = pre ++ user.take v.login
  | .sw_skip => T = LineScanner user .SkippingLine [] stream
  | .sw_passwd =>
    v.passwd ≤ i
      ∧ (∀ c ∈ field_of buf v.passwd i, is_terminator c = false)
      ∧ T = .Matched (field_of buf v.passwd i ++ stream.takeWhile (fun c => !is_terminator c))
      ∧ ∃ pre, consumed = pre ++ user ++ COLON :: field_of buf v.passwd i

/-- A relation `R` between a context and the bytes it still has to deliver is
respected by `read_auth_file`: a read succeeds, delivers a leading part of
those bytes no longer than asked for, delivers nothing only when nothing was
asked for or nothing is left, and leaves a context related to the rest. -/
def delivers (alcf : ngx_http_auth_basic_loc_conf_t)
    (R : auth_file_ctx_t → List Nat → Prop) : Prop :=
  ∀ ctx stream size, R ctx stream →
    ∃ data rest ctx1, read_auth_file alcf ctx size = .ret (some data, ctx1)
      ∧ stream = data ++ rest
      ∧ data.length ≤ size
      ∧ (data = [] → size = 0 ∨ stream = [])
      ∧ R ctx1 rest

/-- The relation between a context that reads a file with bytes `content` and
the bytes it still has to deliver: they are the bytes from the read offset on,
and every read the plan holds succeeds and is allowed at least one byte. -/
def file_source (content : List Nat) (ctx : auth_file_ctx_t) (stream : List Nat) : Prop :=
  ctx.file.content = content
    ∧ stream = content.drop ctx.offset
    ∧ ∀ e ∈ ctx.file.plan, ∃ k, e = some k ∧ 0 < k

/-- The setting of a lookup over a credential file: the realm evaluates to
`realm` and is not `off`, the request carries the credentials `user:passwd`,
the path of the credential file is evaluated for the request and opens the
file `f`, and every read of `f` succeeds with at least one byte allowed. -/
structure file_lookup (r : ngx_http_request_t) (alcf : ngx_http_auth_basic_loc_conf_t)
    (realm user passwd : List Nat) (f : ngx_file_t) : Prop where
  realm_val : ∃ rv, alcf.realm = some rv ∧ ngx_http_complex_value r rv = some realm
  realm_on : ¬ (realm.length = 3 ∧ realm.take 3 = bytes "off")
  creds : r.auth_basic_user = .ok user passwd
  path : ∃ s v p, alcf.user_file.lengths = some s ∧ alcf.user_file.value = some v
    ∧ r.script s = some p ∧ r.open_file p = .ok f
  reads : ∀ e ∈ f.plan, ∃ k, e = some k ∧ 0 < k

/-- The byte string `l` starts with the byte string `p`. -/
def starts_with (p l : List Nat) : Prop := ∃ t, l = p ++ t

/-- The store `content` holds the lines `ls`, then `user:hash`, then `tail`:
the username starts with none of `#`, CR and LF; none of the lines `ls`
starts with `user:` or is a non-empty leading part of `user`; `hash` is free of
LF, CR and `:`, fits the working buffer, and ends at the end of the store or
at a byte LF, CR or `:`. -/
structure first_match (user content : List Nat) (ls : List (List Nat)) (hash tail : List Nat) :
    Prop where
  content_eq : content = unlines ls ++ user ++ COLON :: (hash ++ tail)
  first_byte : ∀ c, user.head? = some c → c ≠ HASH ∧ c ≠ CR ∧ c ≠ LF
  lines : ∀ l ∈ ls, LF ∉ l ∧ ¬ starts_with (user ++ [COLON]) l ∧ (l ≠ [] → ¬ starts_with l user)
  hash_bytes : ∀ c ∈ hash, is_terminator c = false
  tail_start : ∀ c, tail.head? = some c → is_terminator c = true
  fits : hash.length ≤ NGX_HTTP_AUTH_BUF_SIZE

/-! ## Example inputs -/

/-- A working buffer for the examples: 2048 bytes, here all zero. -/
def example_buf : List Nat := List.replicate NGX_HTTP_AUTH_BUF_SIZE 0

/-- A verifier for the examples: the plain-text scheme, whose encoded result is
the key itself. -/
def example_crypt (key _salt : List Nat) : Option (List Nat) := some key

/-- An open credential file for the examples. -/
def example_file (content : List Nat) (plan : List (Option Nat)) : ngx_file_t :=
  { fd := 3, name := [], content := content, plan := plan }

/-- A request for the examples: credentials `user:passwd`, the plain-text
verifier, a file system whose every path opens `opened`, and descriptor 0 at
end of file. -/
def example_request (user passwd : List Nat) (opened : Except Nat ngx_file_t) :
    ngx_http_request_t :=
  { auth_basic_user := .ok user passwd,
    ngx_crypt := example_crypt,
    script := fun _ => some (bytes "/etc/htpasswd"),
    open_file := fun _ => opened,
    fd0 := { fd := 0, name := [], content := [], plan := [] },
    pool := [],
    headers := [],
    www_authenticate := none,
    log := [],
    closed := [],
    crypt_calls := [] }

/-- A location for the examples with realm `site` and a credential file whose
path is evaluated for each request. -/
def example_conf_file : ngx_http_auth_basic_loc_conf_t :=
  { realm := some { value := some (bytes "site"), lengths := none },
    user_file := { value := some (bytes "$htpasswd"), lengths := some 0 },
    cache := { buf := none, next := [] } }

/-- A location for the examples with realm `site` and a static credential file
path, with the given cache. -/
def example_conf_cached (cache : ngx_chain_t) : ngx_http_auth_basic_loc_conf_t :=
  { realm := some { value := some (bytes "site"), lengths := none },
    user_file := { value := some (bytes "/etc/htpasswd"), lengths := none },
    cache := cache }

/-- What a client and an operator see of a handler run: the return code, the
challenge header, the log, the calls of the verifier and the descriptors
closed. -/
structure observation where
  rc : Int
  www_authenticate : Option ngx_table_elt_t
  log : List log_msg
  crypt_calls : List (List Nat × List Nat)
  closed : List Nat
deriving DecidableEq, Repr

/-- The observation of a handler result. -/
def observe (h : handler_result) : observation :=
  { rc := h.rc, www_authenticate := h.r.www_authenticate, log := h.r.log,
    crypt_calls := h.r.crypt_calls, closed := h.r.closed }

/-! ## Configuration and allocation helpers -/

/-- Whether the two allocations of `ngx_http_auth_basic_set_realm` succeed on the
pool: the `ngx_list_push` of the header element and the `ngx_pnalloc` of the
header value. -/
def challenge_allocs (pool : ngx_pool_t) : Bool :=
  (ngx_pool_alloc pool).1 && (ngx_pool_alloc (ngx_pool_alloc pool).2).1

/-- The function `ngx_http_auth_basic_create_loc_conf` (lines 515-526): `none` when
the allocation fails, otherwise the zeroed configuration. -/
def ngx_http_auth_basic_create_loc_conf (pool : ngx_pool_t) :
    Option ngx_http_auth_basic_loc_conf_t :=
  match ngx_pool_alloc pool with
  | (false, _) => none
  | (true, _) =>
    some { realm := none, user_file := { value := none, lengths := none },
           cache := { buf := none, next := [] } }

/-- The zeroed location configuration that `ngx_http_auth_basic_create_loc_conf`
returns. -/
def zeroed_conf : ngx_http_auth_basic_loc_conf_t :=
  { realm := none, user_file := { value := none, lengths := none },
    cache := { buf := none, next := [] } }

/-! ## Loop states and chains -/

/-- A password field for the examples that is longer than the working buffer:
2050 bytes `a`. -/
def example_long_field : List Nat := List.replicate 2050 97

/-- The variables of the handler at the top of an iteration of the read loop. -/
structure loop_state where
  ctx : auth_file_ctx_t
  buf : List Nat
  left : Nat
  v : scan_vars

/-- One iteration of the read loop (lines 343-419) that is followed by another:
the state at the top of the next iteration.  The result is `none` when the
iteration leaves the loop (a read error, a read of 0 bytes, the end of the
password field) or the read faults. -/
def loop_next (alcf : ngx_http_auth_basic_loc_conf_t) (ud : List Nat) (ulen : Nat)
    (s : loop_state) : Option loop_state :=
  match read_auth_file alcf s.ctx (NGX_HTTP_AUTH_BUF_SIZE - s.left) with
  | .ret (some data, ctx1) =>
    if data.length = 0 then none
    else
      match scan_chunk ud ulen (write_at s.buf s.left data) data.length s.left s.v with
      | .found _ _ => none
      | .fell_through _ v1 =>
        if v1.state = .sw_passwd then
          some {
            ctx := ctx1,
            buf := write_at (write_at s.buf s.left data) 0
              (((write_at s.buf s.left data).drop v1.passwd).take
                (s.left + data.length - v1.passwd)),
            left := s.left + data.length - v1.passwd,
            v := { v1 with passwd := 0 } }
        else
          some { ctx := ctx1, buf := write_at s.buf s.left data, left := 0, v := v1 }
  | _ => none

/-- The states at the top of the iterations of the read loop that starts in the
first state. -/
inductive loop_reaches (alcf : ngx_http_auth_basic_loc_conf_t) (ud : List Nat) (ulen : Nat) :
    loop_state → loop_state → Prop where
  | start (s : loop_state) : loop_reaches alcf ud ulen s s
  | step (s t u : loop_state) :
      loop_reaches alcf ud ulen s t → loop_next alcf ud ulen t = some u →
      loop_reaches alcf ud ulen s u

/-- The state in which the handler enters the read loop of a lookup over an open
credential file, for the examples. -/
def example_loop_start (content : List Nat) (plan : List (Option Nat)) : loop_state :=
  { ctx := { file := example_file content plan, chain := [], offset := 0 },
    buf := example_buf, left := 0, v := scan_init }

theorem write_at_nil (buf : List Nat) (off : Nat) : write_at buf off [] = buf := by
  simp [write_at]

theorem write_at_length (buf : List Nat) (off : Nat) (data : List Nat)
    (h : off + data.length ≤ buf.length) : (write_at buf off data).length = buf.length := by
  simp [write_at]; omega

theorem write_at_take (buf : List Nat) (off : Nat) (data : List Nat) (h : off ≤ buf.length) :
    (write_at buf off data).take off = buf.take off := by
  unfold write_at
  rw [List.append_assoc, List.take_append_of_le_length (by simp [h])]
  simp [List.take_take]

theorem write_at_drop (buf : List Nat) (off : Nat) (data : List Nat) (h : off ≤ buf.length) :
    (write_at buf off data).drop off = data ++ buf.drop (off + data.length) := by
  unfold write_at
  rw [List.append_assoc]
  have hl : (buf.take off).length = off := by simp [h]
  rw [List.drop_append_of_le_length (by omega), List.drop_eq_nil_of_le (by omega)]
  simp

theorem write_at_zero_take (buf data : List Nat) :
    (write_at buf 0 data).take data.length = data := by
  simp [write_at]

theorem getD_of_drop_eq_cons {buf : List Nat} {i c : Nat} {tl : List Nat}
    (h : buf.drop i = c :: tl) : buf.getD i 0 = c ∧ buf.drop (i + 1) = tl := by
  constructor
  · have := congrArg (fun l => l.getD 0 0) h
    simpa using this
  · have := congrArg (fun l => l.drop 1) h
    simpa using this

theorem LineScanner_extracting (u acc cs : List Nat) :
    LineScanner u .ExtractingPassword acc cs
      = .Matched (acc ++ cs.takeWhile (fun c => !is_terminator c)) := by
  induction cs generalizing acc with
  | nil => simp [LineScanner]
  | cons c cs ih =>
    by_cases hc : is_terminator c = true
    · simp [LineScanner, hc]
    · simp [LineScanner, hc, ih]

theorem LineScanner_acc (u : List Nat) (cs : List Nat) :
    ∀ (st : ScanState) (acc acc' : List Nat), st ≠ .ExtractingPassword →
      LineScanner u st acc cs = LineScanner u st acc' cs := by
  induction cs with
  | nil => intro st acc acc' h; cases st <;> simp_all [LineScanner]
  | cons c cs ih =>
    intro st acc acc' h
    cases st with
    | ExtractingPassword => exact absurd rfl h
    | SkippingLine =>
      simp only [LineScanner]
      split
      · exact ih _ _ _ (by simp)
      · exact ih _ _ _ (by simp)
    | MatchingUsername k =>
      simp only [LineScanner]
      split
      · exact ih _ _ _ (by simp)
      · split
        · exact ih _ _ _ (by simp)
        · split
          · exact ih _ _ _ (by simp)
          · split
            · rfl
            · exact ih _ _ _ (by simp)

theorem user_data_getD (user rest : List Nat) (k : Nat) (h : k ≤ user.length) :
    (user ++ COLON :: rest).getD k 0 = (user ++ [COLON]).getD k 0 := by
  rcases Nat.lt_or_eq_of_le h with h1 | h1
  · simp [List.getD_eq_getElem?_getD, List.getElem?_append_left h1]
  · subst h1
    have e1 : (user ++ COLON :: rest)[user.length]? = some COLON := by
      rw [List.getElem?_append_right (le_refl _)]; simp
    have e2 : (user ++ [COLON])[user.length]? = some COLON := by
      rw [List.getElem?_append_right (le_refl _)]; simp
    simp [List.getD_eq_getElem?_getD, e1, e2]

theorem field_of_succ {buf : List Nat} {p i c : Nat} {tl : List Nat} (hp : p ≤ i)
    (h : buf.drop i = c :: tl) : field_of buf p (i + 1) = field_of buf p i ++ [c] := by
  unfold field_of
  have e : i + 1 - p = (i - p) + 1 := by omega
  rw [e, List.take_succ]
  congr 1
  have hd : (buf.drop p).drop (i - p) = c :: tl := by
    rw [List.drop_drop]
    have : p + (i - p) = i := by omega
    rw [this]; exact h
  have := congrArg (fun l => l[0]?) hd
  simp at this
  have e2 : p + (i - p) = i := by omega
  simp [List.getElem?_drop, e2] at this ⊢
  simp [this]

/-- One pass through the switch keeps the invariant of the scan, or ends the
password field with the verdict of the one-chunk scanner. -/
theorem scan_switch_inv (user pw : List Nat) (T : Verdict) (consumed buf : List Nat) (i c : Nat)
    (tl : List Nat) (v : scan_vars) (stream : List Nat) (hb : buf.drop i = c :: tl)
    (hinv : scan_inv user T consumed buf i v (c :: stream)) :
    match scan_switch (user ++ COLON :: (pw ++ [0])) user.length c i v with
    | none => v.state = .sw_passwd ∧ v.passwd ≤ i ∧ T = .Matched (field_of buf v.passwd i)
    | some v1 => scan_inv user T (consumed ++ [c]) buf (i + 1) v1 stream := by
  obtain ⟨st, login, p⟩ := v
  cases st with
  | sw_skip =>
    simp only [scan_inv, scan_switch, LineScanner] at hinv ⊢
    by_cases hc : c = LF
    · rw [if_pos hc] at hinv ⊢
      simp only [scan_inv]
      exact ⟨Nat.zero_le _, hinv, consumed ++ [c], by simp⟩
    · rw [if_neg hc] at hinv ⊢
      simpa only [scan_inv] using hinv
  | sw_passwd =>
    simp only [scan_inv, scan_switch] at hinv ⊢
    obtain ⟨hp, hnt, hT, pre, hpre⟩ := hinv
    by_cases hc : c = LF ∨ c = CR ∨ c = COLON
    · rw [if_pos hc]
      refine ⟨trivial, hp, ?_⟩
      have : is_terminator c = true := by
        simp only [is_terminator, Bool.or_eq_true, beq_iff_eq]; tauto
      simpa [List.takeWhile_cons, this] using hT
    · rw [if_neg hc]
      have hnc : is_terminator c = false := by
        have : ¬ (is_terminator c = true) := by
          simp only [is_terminator, Bool.or_eq_true, beq_iff_eq]; tauto
        simpa using this
      simp only [scan_inv]
      rw [field_of_succ hp hb]
      refine ⟨by omega, ?_, ?_, pre, ?_⟩
      · intro x hx
        rcases List.mem_append.mp hx with h1 | h1
        · exact hnt x h1
        · simp at h1; subst h1; exact hnc
      · simpa [List.takeWhile_cons, hnc] using hT
      · simp [hpre]
  | sw_login =>
    simp only [scan_inv, scan_switch] at hinv ⊢
    obtain ⟨hl, hT, pre, hpre⟩ := hinv
    rw [user_data_getD user (pw ++ [0]) login hl]
    simp only [LineScanner] at hT
    by_cases h1 : login = 0 ∧ (c = HASH ∨ c = CR)
    · rw [if_pos h1] at hT ⊢
      simpa only [scan_inv] using hT
    · rw [if_neg h1] at hT ⊢
      by_cases h2 : login = 0 ∧ c = LF
      · rw [if_pos h2] at hT ⊢
        obtain ⟨h20, h2c⟩ := h2
        subst h20
        simp only [scan_inv]
        exact ⟨Nat.zero_le _, hT, consumed ++ [c], by simp⟩
      · rw [if_neg h2] at hT ⊢
        by_cases h3 : c ≠ (user ++ [COLON]).getD login 0
        · rw [if_pos h3] at hT ⊢
          simpa only [scan_inv] using hT
        · rw [if_neg h3] at hT ⊢
          have hc : c = (user ++ [COLON]).getD login 0 := by
            by_contra hne; exact h3 hne
          by_cases h4 : login = user.length
          · rw [if_pos h4] at hT ⊢
            simp only [scan_inv]
            have hcc : c = COLON := by
              rw [hc, h4]
              have e2 : (user ++ [COLON])[user.length]? = some COLON := by
                rw [List.getElem?_append_right (le_refl _)]; simp
              simp [List.getD_eq_getElem?_getD, e2]
            refine ⟨le_refl _, ?_, ?_, pre, ?_⟩
            · intro x hx; simp [field_of] at hx
            · rw [LineScanner_extracting] at hT
              simpa [field_of] using hT
            · simp [field_of, hpre, h4, hcc]
          · rw [if_neg h4] at hT ⊢
            simp only [scan_inv]
            have hlt : login < user.length := by omega
            refine ⟨hlt, hT, pre, ?_⟩
            have hcu : user[login]? = some c := by
              rw [hc]
              simp [List.getD_eq_getElem?_getD, List.getElem?_append_left hlt,
                List.getElem?_eq_getElem hlt]
            rw [hpre, List.take_succ, hcu]
            simp

/-- The inner loop over the bytes just read keeps the invariant of the scan, or
ends inside the chunk with the verdict of the one-chunk scanner. -/
theorem scan_chunk_inv (user pw : List Nat) (T : Verdict) (buf : List Nat) (stream : List Nat) :
    ∀ (data : List Nat) (i : Nat) (v : scan_vars) (consumed tl : List Nat),
      buf.drop i = data ++ tl → scan_inv user T consumed buf i v (data ++ stream) →
      match scan_chunk (user ++ COLON :: (pw ++ [0])) user.length buf data.length i v with
      | .found j p => p ≤ j ∧ j < i + data.length ∧ T = .Matched (field_of buf p j)
      | .fell_through j v1 =>
        j = i + data.length ∧ scan_inv user T (consumed ++ data) buf j v1 stream := by
  intro data
  induction data with
  | nil =>
    intro i v consumed tl _ hinv
    simpa [scan_chunk] using hinv
  | cons c cs ih =>
    intro i v consumed tl hb hinv
    have hb1 : buf.drop i = c :: (cs ++ tl) := by simpa using hb
    obtain ⟨hg, hd⟩ := getD_of_drop_eq_cons hb1
    have hstep := scan_switch_inv user pw T consumed buf i c (cs ++ tl) v (cs ++ stream) hb1
      (by simpa using hinv)
    simp only [List.length_cons, scan_chunk, hg]
    cases hsw : scan_switch (user ++ COLON :: (pw ++ [0])) user.length c i v with
    | none =>
      rw [hsw] at hstep
      simp only
      exact ⟨hstep.2.1, by omega, hstep.2.2⟩
    | some v1 =>
      rw [hsw] at hstep
      simp only
      have := ih (i + 1) v1 (consumed ++ [c]) tl hd hstep
      cases hch : scan_chunk (user ++ COLON :: (pw ++ [0])) user.length buf cs.length (i + 1) v1 with
      | found j p =>
        rw [hch] at this
        simp only at this ⊢
        exact ⟨this.1, by omega, this.2.2⟩
      | fell_through j v2 =>
        rw [hch] at this
        simp only at this ⊢
        refine ⟨by omega, ?_⟩
        simpa using this.2

theorem field_of_set {buf : List Nat} {p j x : Nat} (h : p ≤ j) :
    ((buf.set j x).drop p).take (j - p) = field_of buf p j := by
  unfold field_of
  apply List.ext_getElem?
  intro k
  by_cases hk : k < j - p
  · have hne : j ≠ p + k := by omega
    simp [List.getElem?_take, hk, List.getElem?_drop, List.getElem?_set, hne]
  · simp [List.getElem?_take, hk]

theorem field_of_length_le (buf : List Nat) (p i : Nat) : (field_of buf p i).length ≤ i - p := by
  simp [field_of]

theorem scan_inv_buf {user : List Nat} {T : Verdict} {consumed buf buf1 : List Nat} {i i1 : Nat}
    {v v1 : scan_vars} {stream : List Nat} (hs : v1.state = v.state) (hl : v1.login = v.login)
    (hp : v.state = .sw_passwd → v1.passwd ≤ i1 ∧ field_of buf1 v1.passwd i1 = field_of buf v.passwd i)
    (h : scan_inv user T consumed buf i v stream) : scan_inv user T consumed buf1 i1 v1 stream := by
  obtain ⟨st, login, p⟩ := v
  obtain ⟨st1, login1, p1⟩ := v1
  simp only at hs hl hp
  subst hs hl
  cases st1 with
  | sw_login => simpa only [scan_inv] using h
  | sw_skip => simpa only [scan_inv] using h
  | sw_passwd =>
    simp only [scan_inv] at h ⊢
    obtain ⟨h1, h2⟩ := hp rfl
    rw [h2]
    exact ⟨h1, h.2.1, h.2.2.1, h.2.2.2⟩

theorem drop_set_shape (buf : List Nat) (p j : Nat) (hp : p ≤ j) (hj : j < buf.length) :
    ∃ tl, (buf.set j 0).drop p = ((buf.set j 0).drop p).take (j - p) ++ 0 :: tl := by
  refine ⟨(buf.set j 0).drop (j + 1), ?_⟩
  have h1 : ((buf.set j 0).drop p).drop (j - p) = 0 :: (buf.set j 0).drop (j + 1) := by
    rw [List.drop_drop]
    have e : p + (j - p) = j := by omega
    rw [e, List.drop_eq_getElem_cons (by simpa using hj)]
    simp
  conv_lhs => rw [← List.take_append_drop (j - p) ((buf.set j 0).drop p)]
  rw [h1]

/-- The read loop over any source that `read_auth_file` serves faithfully returns,
with the verdict of the one-chunk scanner cut to the capacity of the buffer. -/
theorem scan_loop_inv (alcf : ngx_http_auth_basic_loc_conf_t)
    (R : auth_file_ctx_t → List Nat → Prop) (hR : delivers alcf R) (user pw : List Nat)
    (T : Verdict) :
    ∀ (fuel : Nat) (ctx : auth_file_ctx_t) (buf : List Nat) (left : Nat) (v : scan_vars)
      (consumed stream : List Nat),
      stream.length < fuel → R ctx stream → buf.length = NGX_HTTP_AUTH_BUF_SIZE →
      left ≤ NGX_HTTP_AUTH_BUF_SIZE → (v.state = .sw_passwd → v.passwd = 0) →
      (v.state ≠ .sw_passwd → left = 0) → scan_inv user T consumed buf left v stream →
      ∃ res consumed1 stream1,
        scan_loop alcf (user ++ COLON :: (pw ++ [0])) user.length fuel ctx buf left v = .ret res
        ∧ verdict_of res = T.truncate
        ∧ consumed1 ++ stream1 = consumed ++ stream
        ∧ R res.ctx stream1
        ∧ res.buf.length = NGX_HTTP_AUTH_BUF_SIZE
        ∧ (∀ len data, res.exit = .found len data → ∃ tl, data = data.take len ++ 0 :: tl)
        ∧ ∀ i v1, res.exit = .end_of_data i v1 →
            scan_inv user T consumed1 res.buf i v1 stream1 ∧ i ≤ NGX_HTTP_AUTH_BUF_SIZE
              ∧ (v1.state = .sw_passwd → v1.passwd = 0)
              ∧ (stream1 = [] ∨ i = NGX_HTTP_AUTH_BUF_SIZE) := by
  intro fuel
  induction fuel with
  | zero => intro ctx buf left v consumed stream h; exact absurd h (Nat.not_lt_zero _)
  | succ fuel ih =>
    intro ctx buf left v consumed stream hfuel hctx hlen hleft hpz hlz hinv
    obtain ⟨data, rest, ctx1, hread, hstream, hdl, hempty, hctx1⟩ :=
      hR ctx stream (NGX_HTTP_AUTH_BUF_SIZE - left) hctx
    simp only [scan_loop, hread]
    by_cases hn : data.length = 0
    · -- the read returned 0
      have hdata : data = [] := List.length_eq_zero.mp hn
      subst hdata
      simp only [List.length_nil, if_true, write_at_nil]
      refine ⟨_, consumed, stream, rfl, ?_, rfl, ?_, hlen, ?_, ?_⟩
      · -- the verdict
        obtain ⟨st, login, p⟩ := v
        cases st with
        | sw_login =>
          have hl0 : left = 0 := hlz (by simp)
          have hs : stream = [] := by
            rcases hempty rfl with h | h
            · simp [NGX_HTTP_AUTH_BUF_SIZE, hl0] at h
            · exact h
          simp only [scan_inv] at hinv
          simp [verdict_of, hinv.2.1, hs, LineScanner, Verdict.truncate]
        | sw_skip =>
          have hl0 : left = 0 := hlz (by simp)
          have hs : stream = [] := by
            rcases hempty rfl with h | h
            · simp [NGX_HTTP_AUTH_BUF_SIZE, hl0] at h
            · exact h
          simp only [scan_inv] at hinv
          simp [verdict_of, hinv, hs, LineScanner, Verdict.truncate]
        | sw_passwd =>
          have hp0 : p = 0 := hpz rfl
          subst hp0
          simp only [scan_inv] at hinv
          obtain ⟨_, _, hT, _⟩ := hinv
          simp only [verdict_of, if_true, hT, Verdict.truncate, Verdict.Matched.injEq]
          change field_of buf 0 left = _
          have hfl : (field_of buf 0 left).length = left := by
            simp only [field_of, List.length_take, List.length_drop]; omega
          rcases hempty rfl with h | h
          · have hl : left = NGX_HTTP_AUTH_BUF_SIZE := by omega
            rw [List.take_append_of_le_length (by omega)]
            rw [List.take_of_length_le (by omega)]
          · subst h
            simp only [List.takeWhile_nil, List.append_nil]
            rw [List.take_of_length_le (by omega)]
      · rw [hstream]; simpa using hctx1
      · intro len d h; cases h
      · intro i v1 hex
        simp only [loop_exit.end_of_data.injEq] at hex
        obtain ⟨hi, hv⟩ := hex
        subst hi hv
        refine ⟨hinv, hleft, hpz, ?_⟩
        rcases hempty rfl with h | h
        · right; omega
        · left; exact h
    · -- the read returned data
      have hfit : left + data.length ≤ buf.length := by omega
      have hlen1 : (write_at buf left data).length = NGX_HTTP_AUTH_BUF_SIZE := by
        rw [write_at_length buf left data hfit, hlen]
      have hdrop : (write_at buf left data).drop left = data ++ buf.drop (left + data.length) :=
        write_at_drop buf left data (by omega)
      have hinv1 : scan_inv user T consumed (write_at buf left data) left v (data ++ rest) := by
        rw [← hstream]
        refine scan_inv_buf rfl rfl ?_ hinv
        intro hs
        have h0 := hpz hs
        refine ⟨by omega, ?_⟩
        rw [h0]
        simp only [field_of, List.drop_zero, Nat.sub_zero]
        exact write_at_take buf left data (by omega)
      have hch := scan_chunk_inv user pw T (write_at buf left data) rest data left v consumed _
        hdrop hinv1
      simp only [hn, if_false]
      cases hc : scan_chunk (user ++ COLON :: (pw ++ [0])) user.length (write_at buf left data)
          data.length left v with
      | found j p =>
        rw [hc] at hch
        simp only at hch ⊢
        refine ⟨_, consumed ++ data, rest, rfl, ?_, by simp [hstream], hctx1, by simp [hlen1], ?_,
          ?_⟩
        · simp only [verdict_of]
          rw [field_of_set hch.1, hch.2.2]
          simp only [Verdict.truncate, Verdict.Matched.injEq]
          have := field_of_length_le (write_at buf left data) p j
          rw [List.take_of_length_le (by omega)]
        · intro len d h
          simp only [loop_exit.found.injEq] at h
          obtain ⟨h1, h2⟩ := h
          subst h1 h2
          exact drop_set_shape _ p j hch.1 (by omega)
        · intro i v1 h; cases h
      | fell_through j v1 =>
        rw [hc] at hch
        simp only at hch ⊢
        obtain ⟨hj, hinv2⟩ := hch
        subst hj
        have hrest : rest.length < fuel := by
          have : stream.length = data.length + rest.length := by rw [hstream]; simp
          omega
        by_cases hs : v1.state = .sw_passwd
        · rw [if_pos hs]
          have hp1 : v1.passwd ≤ left + data.length := by
            obtain ⟨st, login, p⟩ := v1
            simp only at hs; subst hs
            simp only [scan_inv] at hinv2
            exact hinv2.1
          have hinv3 : scan_inv user T (consumed ++ data)
              (write_at (write_at buf left data) 0
                ((List.drop v1.passwd (write_at buf left data)).take (left + data.length - v1.passwd)))
              (left + data.length - v1.passwd) { v1 with passwd := 0 } rest := by
            refine @scan_inv_buf user T (consumed ++ data) (write_at buf left data) _
              (left + data.length) _ v1 _ rest rfl rfl ?_ hinv2
            intro _
            refine ⟨Nat.zero_le _, ?_⟩
            simp only [field_of, List.drop_zero, Nat.sub_zero]
            have hl : ((List.drop v1.passwd (write_at buf left data)).take
                (left + data.length - v1.passwd)).length = left + data.length - v1.passwd := by
              simp only [List.length_take, List.length_drop]; omega
            have hw := write_at_zero_take (write_at buf left data)
              ((List.drop v1.passwd (write_at buf left data)).take (left + data.length - v1.passwd))
            rw [hl] at hw
            exact hw
          obtain ⟨res, c1, s1, h1, h2, h3, h4, h5, h6, h7⟩ :=
            ih ctx1 _ (left + data.length - v1.passwd) { v1 with passwd := 0 } (consumed ++ data)
              rest hrest hctx1
              (by
                rw [write_at_length _ _ _ (by simp only [List.length_take, List.length_drop]; omega)]
                exact hlen1)
              (by omega) (fun _ => rfl) (fun h => absurd hs h) hinv3
          exact ⟨res, c1, s1, h1, h2, by rw [h3, hstream]; simp, h4, h5, h6, h7⟩
        · rw [if_neg hs]
          have hinv3 : scan_inv user T (consumed ++ data) (write_at buf left data) 0 v1 rest := by
            refine @scan_inv_buf user T (consumed ++ data) (write_at buf left data) _
              (left + data.length) _ v1 _ rest rfl rfl ?_ hinv2
            intro h; exact absurd h hs
          obtain ⟨res, c1, s1, h1, h2, h3, h4, h5, h6, h7⟩ :=
            ih ctx1 _ 0 v1 (consumed ++ data) rest hrest hctx1 hlen1 (Nat.zero_le _)
              (fun h => absurd h hs) (fun _ => rfl) hinv3
          exact ⟨res, c1, s1, h1, h2, by rw [h3, hstream]; simp, h4, h5, h6, h7⟩

theorem ngx_read_file_ok (f : ngx_file_t) (size off : Nat)
    (hplan : ∀ e ∈ f.plan, ∃ k, e = some k ∧ 0 < k) :
    ∃ m f1, ngx_read_file f size off = (some ((f.content.drop off).take m), f1)
      ∧ m ≤ size ∧ (m = 0 → size = 0) ∧ f1.content = f.content
      ∧ ∀ e ∈ f1.plan, ∃ k, e = some k ∧ 0 < k := by
  unfold ngx_read_file
  cases hp : f.plan with
  | nil => exact ⟨size, f, rfl, le_refl _, id, rfl, hplan⟩
  | cons e rest =>
    obtain ⟨k, hk, hk0⟩ := hplan e (by simp [hp])
    subst hk
    refine ⟨min size k, { f with plan := rest }, rfl, Nat.min_le_left _ _, ?_, rfl, ?_⟩
    · intro h
      rcases Nat.min_eq_zero_iff.mp h with h | h
      · exact h
      · omega
    · intro e he
      exact hplan e (by simp [hp, he])

/-- A credential file whose reads succeed with at least one byte allowed is a
source that `read_auth_file` serves faithfully. -/
theorem file_source_delivers (alcf : ngx_http_auth_basic_loc_conf_t) (s : Nat)
    (hs : alcf.user_file.lengths = some s) (content : List Nat) :
    delivers alcf (file_source content) := by
  intro ctx stream size hR
  obtain ⟨hc, hst, hplan⟩ := hR
  obtain ⟨m, f1, hread, hm, hm0, hc1, hplan1⟩ := ngx_read_file_ok ctx.file size ctx.offset hplan
  have hdrop : content.drop (ctx.offset + (stream.take m).length) = stream.drop m := by
    rw [hst, List.length_take, List.drop_drop]
    by_cases hml : m ≤ (content.drop ctx.offset).length
    · rw [Nat.min_eq_left hml]
    · have h1 : (content.drop ctx.offset).length ≤ m := by omega
      rw [Nat.min_eq_right h1]
      rw [List.drop_eq_nil_of_le (by simp at h1 ⊢; omega),
        List.drop_eq_nil_of_le (by simp at h1 ⊢; omega)]
  have hdata : (ctx.file.content.drop ctx.offset).take m = stream.take m := by rw [hc, hst]
  refine ⟨stream.take m, stream.drop m,
    { ctx with file := f1, offset := ctx.offset + (stream.take m).length }, ?_,
    (List.take_append_drop _ _).symm, ?_, ?_, ?_⟩
  · simp only [read_auth_file, hs, hread, hdata]
  · exact le_trans (List.length_take_le _ _) hm
  · intro h
    rcases List.take_eq_nil_iff.mp h with h | h
    · left; exact hm0 h
    · right; exact h
  · exact ⟨by simp only [hc1, hc], hdrop.symm, hplan1⟩

theorem init_auth_file_file {r : ngx_http_request_t} {alcf : ngx_http_auth_basic_loc_conf_t}
    {realm user passwd : List Nat} {f : ngx_file_t} (h : file_lookup r alcf realm user passwd f) :
    ∃ p, init_auth_file r alcf
      = (NGX_OK, r, { file := { f with name := p }, chain := [], offset := 0 }) := by
  obtain ⟨s, v, p, hl, hv, hs, ho⟩ := h.path
  refine ⟨p, ?_⟩
  simp [init_auth_file, hl, ngx_http_complex_value, hs, ho]

theorem request_user_data {r : ngx_http_request_t} {user passwd : List Nat}
    (h : r.auth_basic_user = .ok user passwd) :
    r.user_data = user ++ COLON :: (passwd ++ [0]) ∧ r.user = user ∧ r.passwd = passwd := by
  simp [ngx_http_request_t.user_data, ngx_http_request_t.user, ngx_http_request_t.passwd, h]

/-- A lookup over a credential file: the read loop returns with the truncated
verdict of the one-chunk scanner, and the handler returns what `handler_finish`
makes of it. -/
theorem file_lookup_run {r : ngx_http_request_t} {alcf : ngx_http_auth_basic_loc_conf_t}
    {realm user passwd : List Nat} {f : ngx_file_t} (h : file_lookup r alcf realm user passwd f)
    (buf : List Nat) (hbuf : buf.length = NGX_HTTP_AUTH_BUF_SIZE) (fuel : Nat)
    (hfuel : f.content.length < fuel) :
    ∃ res, scan_loop alcf r.user_data r.user.length fuel (init_auth_file r alcf).2.2 buf 0 scan_init
          = .ret res
      ∧ verdict_of res = (scan_one_chunk user f.content).truncate
      ∧ ngx_http_auth_basic_handler fuel r alcf buf = .ret (handler_finish r alcf realm res)
      ∧ (∀ len data, res.exit = .found len data → ∃ tl, data = data.take len ++ 0 :: tl)
      ∧ ∀ i v1, res.exit = .end_of_data i v1 →
          ∃ consumed1, consumed1 ++ f.content.drop res.ctx.offset = f.content
            ∧ scan_inv user (scan_one_chunk user f.content) consumed1 res.buf i v1
                (f.content.drop res.ctx.offset)
            ∧ i ≤ NGX_HTTP_AUTH_BUF_SIZE
            ∧ (v1.state = .sw_passwd → v1.passwd = 0)
            ∧ (f.content.drop res.ctx.offset = [] ∨ i = NGX_HTTP_AUTH_BUF_SIZE) := by
  obtain ⟨p, hinit⟩ := init_auth_file_file h
  obtain ⟨hud, hu, _⟩ := request_user_data h.creds
  obtain ⟨s, v, p', hl, hv, hs, ho⟩ := h.path
  obtain ⟨rv, hrv, hre⟩ := h.realm_val
  have hsrc : file_source f.content
      ({ file := { f with name := p }, chain := [], offset := 0 } : auth_file_ctx_t) f.content :=
    ⟨rfl, by simp, h.reads⟩
  have hinv : scan_inv user (scan_one_chunk user f.content) [] buf 0 scan_init f.content := by
    simp only [scan_inv, scan_init]
    exact ⟨Nat.zero_le _, rfl, [], by simp⟩
  obtain ⟨res, c1, s1, h1, h2, h3, h4, h5, h6, h7⟩ :=
    scan_loop_inv alcf (file_source f.content) (file_source_delivers alcf s hl f.content) user
      passwd (scan_one_chunk user f.content) fuel _ buf 0 scan_init [] f.content hfuel hsrc hbuf
      (Nat.zero_le _) (fun _ => rfl) (fun _ => rfl) hinv
  have hrun : scan_loop alcf r.user_data r.user.length fuel (init_auth_file r alcf).2.2 buf 0
      scan_init = .ret res := by
    rw [hud, hu, hinit]; exact h1
  have hs1 : s1 = f.content.drop res.ctx.offset := by
    obtain ⟨hc, hst, _⟩ := h4
    rw [hst]
  refine ⟨res, hrun, h2, ?_, h6, ?_⟩
  · have hrun2 := hrun
    rw [hinit] at hrun2
    simp only [scan_init] at hrun2
    simp only [ngx_http_auth_basic_handler, hrv, hv, hre, h.realm_on, if_false, h.creds, hinit,
      hrun2]
  · intro i v1 hex
    obtain ⟨a, b, c, d⟩ := h7 i v1 hex
    refine ⟨c1, ?_, ?_, b, c, ?_⟩
    · rw [← hs1, h3]; simp
    · rw [← hs1]; exact a
    · rw [← hs1]; exact d

theorem example_buf_length : example_buf.length = NGX_HTTP_AUTH_BUF_SIZE := by
  simp [example_buf]

theorem example_file_lookup (user passwd content : List Nat) (plan : List (Option Nat))
    (hplan : ∀ e ∈ plan, ∃ k, e = some k ∧ 0 < k) :
    file_lookup (example_request user passwd (.ok (example_file content plan))) example_conf_file
      (bytes "site") user passwd (example_file content plan) where
  realm_val := ⟨_, rfl, rfl⟩
  realm_on := by decide
  creds := rfl
  path := ⟨0, _, _, rfl, rfl, rfl, rfl⟩
  reads := hplan

theorem truncate_of_fits (T : Verdict)
    (hfit : ∀ hash, T = .Matched hash → hash.length ≤ NGX_HTTP_AUTH_BUF_SIZE) : T.truncate = T := by
  cases T with
  | Matched h =>
    simp only [Verdict.truncate, Verdict.Matched.injEq]
    exact List.take_of_length_le (hfit h rfl)
  | NoSuchUser => rfl
  | ReadError => rfl

theorem cstr_append_zero (x : List Nat) : cstr (cstr x ++ [0]) = cstr x := by
  induction x with
  | nil => simp [cstr]
  | cons c cs ih =>
    by_cases hc : c = 0
    · simp [cstr, hc]
    · simp only [cstr] at ih ⊢
      simp [List.takeWhile_cons, hc, ih]

theorem cstr_cpystrn (src : List Nat) (n : Nat) :
    cstr (ngx_cpystrn src (n + 1)) = cstr (src.take n) := by
  simp [ngx_cpystrn, cstr_append_zero]

theorem cstr_of_shape (data : List Nat) (len : Nat) (tl : List Nat)
    (h : data = data.take len ++ 0 :: tl) : cstr data = cstr (data.take len) := by
  generalize data.take len = x at h
  subst h
  induction x with
  | nil => simp [cstr]
  | cons c cs ih =>
    by_cases hc : c = 0
    · simp [cstr, hc]
    · simp only [cstr] at ih ⊢
      simp [List.takeWhile_cons, hc, ih]

theorem set_realm_keeps (r : ngx_http_request_t) (realm : List Nat) :
    (ngx_http_auth_basic_set_realm r realm).2.log = r.log
      ∧ (ngx_http_auth_basic_set_realm r realm).2.crypt_calls = r.crypt_calls
      ∧ (ngx_http_auth_basic_set_realm r realm).2.closed = r.closed := by
  unfold ngx_http_auth_basic_set_realm
  rcases h1 : ngx_pool_alloc r.pool with ⟨b1, p1⟩
  cases b1
  · simp
  · rcases h2 : ngx_pool_alloc p1 with ⟨b2, p2⟩
    cases b2 <;> simp [h2]

theorem pool_alloc_ok (pool : ngx_pool_t) (h : ∀ b ∈ pool, b = true) :
    (ngx_pool_alloc pool).1 = true ∧ ∀ b ∈ (ngx_pool_alloc pool).2, b = true := by
  cases pool with
  | nil => simp [ngx_pool_alloc]
  | cons b rest =>
    simp only [ngx_pool_alloc]
    exact ⟨h b (by simp), fun x hx => h x (by simp [hx])⟩

theorem basic_realm_value (realm : List Nat) :
    (bytes "Basic realm=\"" ++ realm ++ bytes "\"").take
        ((bytes "Basic realm=\"\"").length + realm.length)
      = bytes "Basic realm=\"" ++ realm ++ bytes "\"" := by
  apply List.take_of_length_le
  have h1 : (bytes "Basic realm=\"").length = 13 := by decide
  have h2 : (bytes "\"").length = 1 := by decide
  have h3 : (bytes "Basic realm=\"\"").length = 14 := by decide
  simp only [List.length_append, h1, h2, h3]
  omega

theorem set_realm_ok (r : ngx_http_request_t) (realm : List Nat) (h : ∀ b ∈ r.pool, b = true) :
    (ngx_http_auth_basic_set_realm r realm).1 = NGX_HTTP_UNAUTHORIZED
      ∧ (ngx_http_auth_basic_set_realm r realm).2.www_authenticate = some (challenge realm)
      ∧ (ngx_http_auth_basic_set_realm r realm).2.headers = r.headers ++ [challenge realm] := by
  unfold ngx_http_auth_basic_set_realm
  obtain ⟨h1, h2⟩ := pool_alloc_ok r.pool h
  obtain ⟨h3, _⟩ := pool_alloc_ok _ h2
  rcases e1 : ngx_pool_alloc r.pool with ⟨b1, p1⟩
  rw [e1] at h1 h3
  simp only at h1 h3
  subst h1
  rcases e2 : ngx_pool_alloc p1 with ⟨b2, p2⟩
  rw [e2] at h3
  simp only at h3
  subst h3
  simp only [e2, basic_realm_value, challenge, and_self]

theorem crypt_handler_calls (r : ngx_http_request_t) (data realm : List Nat) :
    (ngx_http_auth_basic_crypt_handler r data realm).2.crypt_calls
      = r.crypt_calls ++ [(cstr r.passwd_data, cstr data)] := by
  unfold ngx_http_auth_basic_crypt_handler
  simp only
  cases r.ngx_crypt (cstr r.passwd_data) (cstr data) with
  | none => rfl
  | some e =>
    simp only
    split
    · rfl
    · rw [(set_realm_keeps _ realm).2.1]

theorem crypt_handler_cstr (r : ngx_http_request_t) (d1 d2 realm : List Nat)
    (h : cstr d1 = cstr d2) :
    ngx_http_auth_basic_crypt_handler r d1 realm = ngx_http_auth_basic_crypt_handler r d2 realm := by
  unfold ngx_http_auth_basic_crypt_handler
  simp only [h]

theorem cleanup_keeps (r : ngx_http_request_t) (alcf : ngx_http_auth_basic_loc_conf_t)
    (ctx : auth_file_ctx_t) :
    (cleanup_auth_file r alcf ctx).crypt_calls = r.crypt_calls
      ∧ (cleanup_auth_file r alcf ctx).log = r.log
      ∧ (cleanup_auth_file r alcf ctx).www_authenticate = r.www_authenticate
      ∧ (cleanup_auth_file r alcf ctx).headers = r.headers := by
  unfold cleanup_auth_file
  cases alcf.user_file.lengths <;> simp

theorem handler_finish_matched (r : ngx_http_request_t) (alcf : ngx_http_auth_basic_loc_conf_t)
    (realm : List Nat) (res : loop_result) (hash : List Nat)
    (hv : verdict_of res = .Matched hash)
    (hshape : ∀ len data, res.exit = .found len data → ∃ tl, data = data.take len ++ 0 :: tl)
    (halloc : (ngx_pool_alloc r.pool).1 = true) :
    ∃ pool1, (pool1 = r.pool ∨ pool1 = (ngx_pool_alloc r.pool).2)
      ∧ handler_finish r alcf realm res
        = handler_cleanup (ngx_http_auth_basic_crypt_handler { r with pool := pool1 } hash realm).1
            (ngx_http_auth_basic_crypt_handler { r with pool := pool1 } hash realm).2 alcf
            res.ctx := by
  obtain ⟨ex, ctx, buf⟩ := res
  cases ex with
  | read_error => simp [verdict_of] at hv
  | found len data =>
    simp only [verdict_of, Verdict.Matched.injEq] at hv
    obtain ⟨tl, htl⟩ := hshape len data rfl
    have hc := cstr_of_shape data len tl htl
    rw [hv] at hc
    refine ⟨r.pool, Or.inl rfl, ?_⟩
    simp only [handler_finish]
    rw [crypt_handler_cstr r data hash realm hc]
  | end_of_data i v =>
    simp only [verdict_of] at hv
    by_cases hs : v.state = .sw_passwd
    · rw [if_pos hs] at hv
      simp only [Verdict.Matched.injEq] at hv
      refine ⟨(ngx_pool_alloc r.pool).2, Or.inr rfl, ?_⟩
      simp only [handler_finish, hs, if_true]
      rcases e : ngx_pool_alloc r.pool with ⟨b, pool1⟩
      rw [e] at halloc
      simp only at halloc
      subst halloc
      simp only
      have hc : cstr (ngx_cpystrn (List.drop v.passwd buf) (i - v.passwd + 1)) = cstr hash := by
        rw [cstr_cpystrn, hv]
      rw [crypt_handler_cstr _ _ hash realm hc]
    · rw [if_neg hs] at hv
      cases hv

theorem skip_line (u : List Nat) (rest : List Nat) :
    ∀ (l acc : List Nat), LF ∉ l →
      LineScanner u .SkippingLine acc (l ++ LF :: rest)
        = LineScanner u (.MatchingUsername 0) acc rest := by
  intro l
  induction l with
  | nil => intro acc _; simp [LineScanner]
  | cons c cs ih =>
    intro acc h
    have hc : c ≠ LF := fun e => h (by simp [e])
    have hcs : LF ∉ cs := fun e => h (by simp [e])
    simp only [List.cons_append, LineScanner, hc, if_false]
    exact ih acc hcs

theorem pattern_getD (u : List Nat) (k : Nat) (hk : k < (u ++ [COLON]).length) :
    (u ++ [COLON]).drop k = (u ++ [COLON]).getD k 0 :: (u ++ [COLON]).drop (k + 1) := by
  rw [List.drop_eq_getElem_cons hk]
  simp [List.getD_eq_getElem?_getD, List.getElem?_eq_getElem hk]

theorem other_line (u : List Nat) (rest : List Nat) :
    ∀ (l : List Nat) (k : Nat) (acc : List Nat), k ≤ u.length → LF ∉ l →
      ¬ starts_with ((u ++ [COLON]).drop k) l → ¬ starts_with l (u.drop k) →
      LineScanner u (.MatchingUsername k) acc (l ++ LF :: rest)
        = LineScanner u (.MatchingUsername 0) acc rest := by
  intro l
  induction l with
  | nil =>
    intro k acc _ _ _ h
    exact absurd ⟨u.drop k, rfl⟩ h
  | cons c cs ih =>
    intro k acc hk hlf hpat huser
    have hc : c ≠ LF := fun e => hlf (by simp [e])
    have hcs : LF ∉ cs := fun e => hlf (by simp [e])
    simp only [List.cons_append, LineScanner]
    by_cases h1 : k = 0 ∧ (c = HASH ∨ c = CR)
    · rw [if_pos h1]; exact skip_line u rest cs acc hcs
    · rw [if_neg h1]
      have h2 : ¬ (k = 0 ∧ c = LF) := fun h => hc h.2
      rw [if_neg h2]
      by_cases h3 : c ≠ (u ++ [COLON]).getD k 0
      · rw [if_pos h3]; exact skip_line u rest cs acc hcs
      · rw [if_neg h3]
        have hce : c = (u ++ [COLON]).getD k 0 := by
          by_contra hne; exact h3 hne
        have hpk := pattern_getD u k (by simp; omega)
        by_cases h4 : k = u.length
        · exfalso
          apply hpat
          refine ⟨cs, ?_⟩
          rw [hpk, ← hce, h4]
          simp
        · rw [if_neg h4]
          have hlt : k < u.length := by omega
          have huk : u.drop k = c :: u.drop (k + 1) := by
            rw [List.drop_eq_getElem_cons hlt, hce]
            simp [List.getD_eq_getElem?_getD, List.getElem?_append_left hlt,
              List.getElem?_eq_getElem hlt]
          apply ih (k + 1) acc hlt hcs
          · rintro ⟨t, ht⟩
            apply hpat
            refine ⟨t, ?_⟩
            rw [hpk, ← hce, ht]
            simp
          · rintro ⟨t, ht⟩
            apply huser
            refine ⟨t, ?_⟩
            rw [huk, ht]
            simp

theorem line_skipped (u : List Nat) (rest : List Nat) (l acc : List Nat) (hlf : LF ∉ l)
    (hpat : ¬ starts_with (u ++ [COLON]) l) (huser : l ≠ [] → ¬ starts_with l u) :
    LineScanner u (.MatchingUsername 0) acc (l ++ LF :: rest)
      = LineScanner u (.MatchingUsername 0) acc rest := by
  by_cases hl : l = []
  · subst hl
    have hne : ¬ (LF = HASH ∨ LF = CR) := by decide
    simp [LineScanner, hne]
  · exact other_line u rest l 0 acc (Nat.zero_le _) hlf (by simpa using hpat)
      (by simpa using huser hl)

theorem matching_line (u : List Nat) (rest : List Nat)
    (hfirst : ∀ c, u.head? = some c → c ≠ HASH ∧ c ≠ CR ∧ c ≠ LF) :
    ∀ (n k : Nat) (acc : List Nat), k + n = u.length →
      LineScanner u (.MatchingUsername k) acc (u.drop k ++ COLON :: rest)
        = LineScanner u .ExtractingPassword [] rest := by
  intro n
  induction n with
  | zero =>
    intro k acc hk
    have hk' : k = u.length := by omega
    subst hk'
    have e2 : (u ++ [COLON])[u.length]? = some COLON := by
      rw [List.getElem?_append_right (le_refl _)]; simp
    have hne : ¬ (COLON = HASH ∨ COLON = CR) := by decide
    have hne2 : ¬ (COLON = LF) := by decide
    simp [LineScanner, List.getD_eq_getElem?_getD, e2, hne, hne2]
  | succ n ih =>
    intro k acc hk
    have hlt : k < u.length := by omega
    have hdk : u.drop k = u[k] :: u.drop (k + 1) := List.drop_eq_getElem_cons hlt
    have hg : (u ++ [COLON]).getD k 0 = u[k] := by
      simp [List.getD_eq_getElem?_getD, List.getElem?_append_left hlt,
        List.getElem?_eq_getElem hlt]
    have hhead : k = 0 → u[k] ≠ HASH ∧ u[k] ≠ CR ∧ u[k] ≠ LF := by
      intro h0
      subst h0
      apply hfirst
      cases u with
      | nil => simp at hlt
      | cons a as => simp
    rw [hdk]
    simp only [List.cons_append, LineScanner]
    have h1 : ¬ (k = 0 ∧ (u[k] = HASH ∨ u[k] = CR)) := by
      rintro ⟨h0, h⟩
      obtain ⟨a, b, _⟩ := hhead h0
      rcases h with h | h
      · exact a h
      · exact b h
    have h2 : ¬ (k = 0 ∧ u[k] = LF) := by
      rintro ⟨h0, h⟩
      exact (hhead h0).2.2 h
    rw [if_neg h1, if_neg h2, hg]
    simp only [ne_eq, not_true_eq_false, if_false]
    rw [if_neg (by omega)]
    exact ih (k + 1) acc (by omega)

theorem takeWhile_field (hash tail : List Nat) (hhash : ∀ c ∈ hash, is_terminator c = false)
    (htail : ∀ c, tail.head? = some c → is_terminator c = true) :
    (hash ++ tail).takeWhile (fun c => !is_terminator c) = hash := by
  induction hash with
  | nil =>
    cases tail with
    | nil => rfl
    | cons t ts => simp [List.takeWhile_cons, htail t rfl]
  | cons c cs ih =>
    have hc := hhash c (by simp)
    simp only [List.cons_append, List.takeWhile_cons, hc, Bool.not_false, if_true]
    rw [ih (fun x hx => hhash x (by simp [hx]))]

/-- The one-chunk scanner on a store whose first line for the user follows lines
that it skips to their end: the verdict is the hash of that line. -/
theorem scan_store (u : List Nat) (hash tail : List Nat)
    (hfirst : ∀ c, u.head? = some c → c ≠ HASH ∧ c ≠ CR ∧ c ≠ LF)
    (hhash : ∀ c ∈ hash, is_terminator c = false)
    (htail : ∀ c, tail.head? = some c → is_terminator c = true) :
    ∀ ls : List (List Nat),
      (∀ l ∈ ls, LF ∉ l ∧ ¬ starts_with (u ++ [COLON]) l ∧ (l ≠ [] → ¬ starts_with l u)) →
      scan_one_chunk u (unlines ls ++ u ++ COLON :: (hash ++ tail)) = .Matched hash := by
  intro ls
  induction ls with
  | nil =>
    intro _
    simp only [scan_one_chunk, unlines, List.nil_append]
    have := matching_line u (hash ++ tail) hfirst u.length 0 [] (by simp)
    simp only [List.drop_zero] at this
    rw [this, LineScanner_extracting, takeWhile_field hash tail hhash htail]
    simp
  | cons l ls ih =>
    intro h
    obtain ⟨a, b, c⟩ := h l (by simp)
    have := ih (fun x hx => h x (by simp [hx]))
    simp only [scan_one_chunk] at this ⊢
    simp only [unlines, List.append_assoc, List.cons_append]
    rw [line_skipped u _ l [] a b c]
    simpa only [List.append_assoc] using this

theorem not_starts_with_of_take {p l : List Nat} (h : l.take p.length ≠ p) :
    ¬ starts_with p l := by
  rintro ⟨t, ht⟩
  apply h
  rw [ht]
  simp

theorem crypt_handler_result (r : ngx_http_request_t) (d realm e : List Nat)
    (hcrypt : r.ngx_crypt (cstr r.passwd_data) (cstr d) = some e)
    (hpool : ∀ b ∈ r.pool, b = true) :
    (cstr e = cstr d → (ngx_http_auth_basic_crypt_handler r d realm).1 = NGX_OK
        ∧ (ngx_http_auth_basic_crypt_handler r d realm).2.www_authenticate = r.www_authenticate)
    ∧ (cstr e ≠ cstr d → (ngx_http_auth_basic_crypt_handler r d realm).1 = NGX_HTTP_UNAUTHORIZED
        ∧ (ngx_http_auth_basic_crypt_handler r d realm).2.www_authenticate
            = some (challenge realm)) := by
  unfold ngx_http_auth_basic_crypt_handler
  simp only [hcrypt]
  constructor
  · intro he
    rw [if_pos he]
    exact ⟨rfl, rfl⟩
  · intro he
    rw [if_neg he]
    obtain ⟨h1, h2, _⟩ := set_realm_ok
      { r with crypt_calls := r.crypt_calls ++ [(cstr r.passwd_data, cstr d)],
               log := r.log ++ [log_msg.password_mismatch r.user] } realm hpool
    exact ⟨h1, h2⟩

theorem first_match_run {r : ngx_http_request_t} {alcf : ngx_http_auth_basic_loc_conf_t}
    {realm user passwd : List Nat} {f : ngx_file_t} (h : file_lookup r alcf realm user passwd f)
    (buf : List Nat) (hbuf : buf.length = NGX_HTTP_AUTH_BUF_SIZE) (fuel : Nat)
    (hfuel : f.content.length < fuel) (ls : List (List Nat)) (hash tail : List Nat)
    (hstore : first_match user f.content ls hash tail)
    (halloc : (ngx_pool_alloc r.pool).1 = true) :
    lookup_verdict fuel r alcf buf = .ret (.Matched hash)
    ∧ ∃ ctx pool1, (pool1 = r.pool ∨ pool1 = (ngx_pool_alloc r.pool).2)
      ∧ ngx_http_auth_basic_handler fuel r alcf buf
        = .ret (handler_cleanup
            (ngx_http_auth_basic_crypt_handler { r with pool := pool1 } hash realm).1
            (ngx_http_auth_basic_crypt_handler { r with pool := pool1 } hash realm).2 alcf
            ctx) := by
  obtain ⟨res, hrun, hv, hhandler, hshape, _⟩ := file_lookup_run h buf hbuf fuel hfuel
  have hT : scan_one_chunk user f.content = .Matched hash := by
    rw [hstore.content_eq]
    exact scan_store user hash tail hstore.first_byte hstore.hash_bytes hstore.tail_start ls
      hstore.lines
  have hv2 : verdict_of res = .Matched hash := by
    rw [hv, hT]
    simp only [Verdict.truncate, Verdict.Matched.injEq]
    exact List.take_of_length_le hstore.fits
  refine ⟨?_, ?_⟩
  · simp only [lookup_verdict, hrun, Run.map, Run.bind, hv2]
  · obtain ⟨pool1, hp, hfin⟩ := handler_finish_matched r alcf realm res hash hv2 hshape halloc
    exact ⟨res.ctx, pool1, hp, by rw [hhandler, hfin]⟩

theorem example_first_match (rest : List Nat) :
    first_match (bytes "bob") (bytes "alice:secret\nbob:hunter2\n" ++ rest)
      [bytes "alice:secret"] (bytes "hunter2") (LF :: rest) where
  content_eq := by
    have e : bytes "alice:secret\nbob:hunter2\n"
        = unlines [bytes "alice:secret"] ++ bytes "bob" ++ COLON :: (bytes "hunter2" ++ [LF]) := by
      decide
    rw [e]
    simp
  first_byte := by
    intro c hc
    have e : (bytes "bob").head? = some 98 := by decide
    rw [e] at hc
    cases hc
    decide
  lines := by
    intro l hl
    simp only [List.mem_singleton] at hl
    subst hl
    refine ⟨by decide, not_starts_with_of_take (by decide), fun _ => ?_⟩
    exact not_starts_with_of_take (by decide)
  hash_bytes := by decide
  tail_start := by
    intro c hc
    simp only [List.head?_cons, Option.some.injEq] at hc
    subst hc
    decide
  fits := by decide

theorem set_realm_result (r : ngx_http_request_t) (realm : List Nat) :
    (challenge_allocs r.pool = true →
        (ngx_http_auth_basic_set_realm r realm).1 = NGX_HTTP_UNAUTHORIZED
        ∧ (ngx_http_auth_basic_set_realm r realm).2.www_authenticate = some (challenge realm)
        ∧ (ngx_http_auth_basic_set_realm r realm).2.headers = r.headers ++ [challenge realm])
    ∧ (challenge_allocs r.pool = false →
        (ngx_http_auth_basic_set_realm r realm).1 = NGX_HTTP_INTERNAL_SERVER_ERROR
        ∧ (ngx_http_auth_basic_set_realm r realm).2.www_authenticate = none
        ∧ ∀ elt ∈ (ngx_http_auth_basic_set_realm r realm).2.headers,
            elt ∈ r.headers ∨ elt.hash = 0) := by
  unfold ngx_http_auth_basic_set_realm challenge_allocs
  rcases e1 : ngx_pool_alloc r.pool with ⟨b1, p1⟩
  cases b1
  · simp only [Bool.false_and, Bool.false_eq_true, false_implies, true_and, forall_const]
    exact fun elt h => Or.inl h
  · rcases e2 : ngx_pool_alloc p1 with ⟨b2, p2⟩
    cases b2
    · simp only [e2, Bool.and_false, Bool.false_eq_true, false_implies, true_and, forall_const]
      intro elt helt
      simp only [List.mem_append, List.mem_singleton] at helt
      rcases helt with h | h
      · left; exact h
      · right; rw [h]
    · simp only [e2, Bool.and_self, forall_const, Bool.true_eq_false, false_implies, and_true,
        true_and]
      rw [basic_realm_value]
      exact ⟨rfl, rfl⟩

theorem return_codes_distinct :
    NGX_OK ≠ NGX_HTTP_UNAUTHORIZED ∧ NGX_OK ≠ NGX_HTTP_INTERNAL_SERVER_ERROR
      ∧ NGX_HTTP_UNAUTHORIZED ≠ NGX_HTTP_INTERNAL_SERVER_ERROR
      ∧ NGX_DECLINED ≠ NGX_OK ∧ NGX_DECLINED ≠ NGX_HTTP_UNAUTHORIZED
      ∧ NGX_DECLINED ≠ NGX_HTTP_INTERNAL_SERVER_ERROR ∧ NGX_DECLINED ≠ NGX_ERROR := by
  decide

theorem set_realm_rc (r : ngx_http_request_t) (realm : List Nat) :
    (ngx_http_auth_basic_set_realm r realm).1 = NGX_HTTP_UNAUTHORIZED
      ∨ (ngx_http_auth_basic_set_realm r realm).1 = NGX_HTTP_INTERNAL_SERVER_ERROR := by
  cases ha : challenge_allocs r.pool with
  | true => exact Or.inl ((set_realm_result r realm).1 ha).1
  | false => exact Or.inr ((set_realm_result r realm).2 ha).1

theorem set_realm_not_declined (r : ngx_http_request_t) (realm : List Nat) :
    (ngx_http_auth_basic_set_realm r realm).1 ≠ NGX_DECLINED := by
  obtain ⟨_, _, _, _, d5, d6, _⟩ := return_codes_distinct
  intro h
  rcases set_realm_rc r realm with e | e
  · rw [e] at h; exact d5 h.symm
  · rw [e] at h; exact d6 h.symm

theorem crypt_handler_rc (r : ngx_http_request_t) (d realm : List Nat) :
    (ngx_http_auth_basic_crypt_handler r d realm).1 = NGX_OK
      ∨ (ngx_http_auth_basic_crypt_handler r d realm).1 = NGX_HTTP_UNAUTHORIZED
      ∨ (ngx_http_auth_basic_crypt_handler r d realm).1 = NGX_HTTP_INTERNAL_SERVER_ERROR := by
  unfold ngx_http_auth_basic_crypt_handler
  simp only
  cases r.ngx_crypt (cstr r.passwd_data) (cstr d) with
  | none => exact Or.inr (Or.inr rfl)
  | some e =>
    simp only
    split
    · exact Or.inl rfl
    · exact Or.inr (set_realm_rc _ realm)

theorem handler_finish_rc (r : ngx_http_request_t) (alcf : ngx_http_auth_basic_loc_conf_t)
    (realm : List Nat) (res : loop_result) :
    (handler_finish r alcf realm res).rc = NGX_OK
      ∨ (handler_finish r alcf realm res).rc = NGX_HTTP_UNAUTHORIZED
      ∨ (handler_finish r alcf realm res).rc = NGX_HTTP_INTERNAL_SERVER_ERROR := by
  obtain ⟨ex, ctx, buf⟩ := res
  cases ex with
  | read_error => exact Or.inr (Or.inr rfl)
  | found len data => exact crypt_handler_rc r data realm
  | end_of_data i v =>
    simp only [handler_finish]
    by_cases hs : v.state = .sw_passwd
    · rw [if_pos hs]
      rcases e : ngx_pool_alloc r.pool with ⟨b, pool1⟩
      cases b
      · exact Or.inr (Or.inr rfl)
      · exact crypt_handler_rc _ _ realm
    · rw [if_neg hs]
      exact Or.inr (set_realm_rc _ realm)

theorem realm_is_off (realm : List Nat) :
    (realm.length = 3 ∧ realm.take 3 = bytes "off") ↔ realm = bytes "off" := by
  constructor
  · rintro ⟨h1, h2⟩
    rw [← h2, List.take_of_length_le (by omega)]
  · intro h
    subst h
    decide

theorem example_long_field_length : example_long_field.length = 2050 :=
  List.length_replicate _ _

theorem example_long_store :
    scan_one_chunk (bytes "bob") (bytes "bob:" ++ (example_long_field ++ [LF]))
      = .Matched example_long_field := by
  have h := scan_store (bytes "bob") example_long_field [LF]
    (by
      intro c hc
      have e : (bytes "bob").head? = some 98 := by decide
      rw [e] at hc; cases hc; decide)
    (by
      intro c hc
      rw [List.eq_of_mem_replicate hc]
      decide)
    (by
      intro c hc
      simp only [List.head?_cons, Option.some.injEq] at hc
      subst hc; decide)
    [] (by intro l hl; cases hl)
  have e : bytes "bob:" = bytes "bob" ++ [COLON] := by decide
  rw [e]
  simpa [unlines] using h

/-- The function `loop_next` is the step of `scan_loop`: when an iteration is
followed by another, the loop continues from the next state. -/
theorem scan_loop_step (alcf : ngx_http_auth_basic_loc_conf_t) (ud : List Nat) (ulen : Nat)
    (fuel : Nat) (s t : loop_state) (h : loop_next alcf ud ulen s = some t) :
    scan_loop alcf ud ulen (fuel + 1) s.ctx s.buf s.left s.v
      = scan_loop alcf ud ulen fuel t.ctx t.buf t.left t.v := by
  unfold loop_next at h
  simp only [scan_loop]
  split at h
  · rename_i data ctx1 hread
    rw [hread]
    simp only
    by_cases hn : data.length = 0
    · rw [if_pos hn] at h; cases h
    · rw [if_neg hn] at h ⊢
      split at h
      · cases h
      · rename_i j v1 hch
        by_cases hs : v1.state = .sw_passwd
        · rw [if_pos hs] at h ⊢
          cases h
          rfl
        · rw [if_neg hs] at h ⊢
          cases h
          rfl
  · cases h

theorem loop_reaches_next (alcf : ngx_http_auth_basic_loc_conf_t) (ud : List Nat) (ulen : Nat)
    (s : loop_state) : loop_reaches alcf ud ulen s ((loop_next alcf ud ulen s).getD s) := by
  cases h : loop_next alcf ud ulen s with
  | none => exact loop_reaches.start s
  | some t => exact loop_reaches.step s s t (loop_reaches.start s) h

theorem read_auth_chain_le :
    ∀ (chain : ngx_chain_ptr) (offset size : Nat) (out out1 : List Nat) (cl : ngx_chain_ptr)
      (off : Nat), read_auth_chain chain offset size out = .ret (out1, cl, off) →
      out1.length ≤ out.length + size := by
  intro chain
  induction chain with
  | nil =>
    intro offset size out out1 cl off h
    simp only [read_auth_chain, Run.ret.injEq, Prod.mk.injEq] at h
    rw [← h.1]; omega
  | cons b next ih =>
    intro offset size out out1 cl off h
    cases b with
    | none => simp [read_auth_chain] at h
    | some buf =>
      simp only [read_auth_chain] at h
      by_cases hs : size ≤ buf.length - offset
      · rw [if_pos hs] at h
        simp only [Run.ret.injEq, Prod.mk.injEq] at h
        rw [← h.1]
        simp only [List.length_append, List.length_take]
        omega
      · rw [if_neg hs] at h
        have := ih _ _ _ _ _ _ h
        simp only [List.length_append, List.length_take] at this
        omega

theorem read_auth_file_le (alcf : ngx_http_auth_basic_loc_conf_t) (ctx ctx1 : auth_file_ctx_t)
    (size : Nat) (data : List Nat) (h : read_auth_file alcf ctx size = .ret (some data, ctx1)) :
    data.length ≤ size := by
  unfold read_auth_file at h
  cases hl : alcf.user_file.lengths with
  | none =>
    rw [hl] at h
    simp only at h
    cases hc : read_auth_chain ctx.chain ctx.offset size [] with
    | fault => rw [hc] at h; simp [Run.bind] at h
    | out_of_fuel => rw [hc] at h; simp [Run.bind] at h
    | ret x =>
      obtain ⟨out, cl, off⟩ := x
      rw [hc] at h
      simp only [Run.bind, Run.ret.injEq, Prod.mk.injEq, Option.some.injEq] at h
      have := read_auth_chain_le _ _ _ _ _ _ _ hc
      rw [← h.1]
      simpa using this
  | some s =>
    rw [hl] at h
    simp only [ngx_read_file] at h
    cases hp : ctx.file.plan with
    | nil =>
      rw [hp] at h
      simp only [Run.ret.injEq, Prod.mk.injEq, Option.some.injEq] at h
      rw [← h.1]
      exact List.length_take_le _ _
    | cons e rest =>
      rw [hp] at h
      cases e with
      | none => simp at h
      | some k =>
        simp only [Run.ret.injEq, Prod.mk.injEq, Option.some.injEq] at h
        rw [← h.1]
        exact le_trans (List.length_take_le _ _) (Nat.min_le_left _ _)

theorem scan_switch_bounds (ud : List Nat) (ulen c i : Nat) (v v1 : scan_vars)
    (hq : v.passwd ≤ i ∧ (v.state ≠ .sw_passwd → v.passwd = 0))
    (h : scan_switch ud ulen c i v = some v1) :
    v1.passwd ≤ i + 1 ∧ (v1.state ≠ .sw_passwd → v1.passwd = 0) := by
  obtain ⟨st, login, p⟩ := v
  simp only at hq
  cases st with
  | sw_login =>
    have hp : p = 0 := hq.2 (by simp)
    subst hp
    simp only [scan_switch] at h
    split at h
    · cases h; simp
    · split at h
      · cases h; simp
      · split at h
        · cases h; simp
        · split at h
          · cases h; simp
          · cases h; simp
  | sw_passwd =>
    simp only [scan_switch] at h
    split at h
    · cases h
    · cases h
      exact ⟨by simp only; omega, fun hh => absurd rfl hh⟩
  | sw_skip =>
    have hp : p = 0 := hq.2 (by simp)
    subst hp
    simp only [scan_switch] at h
    split at h
    · cases h; simp
    · cases h; simp

theorem scan_chunk_bounds (ud : List Nat) (ulen : Nat) (buf : List Nat) :
    ∀ (k i : Nat) (v : scan_vars), (v.passwd ≤ i ∧ (v.state ≠ .sw_passwd → v.passwd = 0)) →
      match scan_chunk ud ulen buf k i v with
      | .found j p => i ≤ j ∧ j < i + k ∧ p ≤ j
      | .fell_through j v1 =>
        j = i + k ∧ v1.passwd ≤ i + k ∧ (v1.state ≠ .sw_passwd → v1.passwd = 0) := by
  intro k
  induction k with
  | zero =>
    intro i v hq
    simpa [scan_chunk] using hq
  | succ k ih =>
    intro i v hq
    simp only [scan_chunk]
    cases hsw : scan_switch ud ulen (buf.getD i 0) i v with
    | none =>
      simp only
      exact ⟨le_refl _, by omega, hq.1⟩
    | some v1 =>
      simp only
      have := ih (i + 1) v1 (scan_switch_bounds ud ulen _ i v v1 hq hsw)
      cases hch : scan_chunk ud ulen buf k (i + 1) v1 with
      | found j p =>
        rw [hch] at this
        simp only at this ⊢
        exact ⟨by omega, by omega, this.2.2⟩
      | fell_through j v2 =>
        rw [hch] at this
        simp only at this ⊢
        exact ⟨by omega, by omega, this.2.2⟩

theorem scan_chunk_ext (ud : List Nat) (ulen : Nat) (buf buf1 : List Nat) :
    ∀ (k i : Nat) (v : scan_vars),
      (∀ j, i ≤ j → j < i + k → buf1.getD j 0 = buf.getD j 0) →
      scan_chunk ud ulen buf1 k i v = scan_chunk ud ulen buf k i v := by
  intro k
  induction k with
  | zero => intro i v _; rfl
  | succ k ih =>
    intro i v h
    simp only [scan_chunk]
    rw [h i (le_refl _) (by omega)]
    cases scan_switch ud ulen (buf.getD i 0) i v with
    | none => rfl
    | some v1 =>
      simp only
      exact ih (i + 1) v1 (fun j h1 h2 => h j (by omega) (by omega))

theorem loop_reaches_bounds (alcf : ngx_http_auth_basic_loc_conf_t) (ud : List Nat) (ulen : Nat)
    (s0 s : loop_state) (hbuf : s0.buf.length = NGX_HTTP_AUTH_BUF_SIZE) (hleft : s0.left = 0)
    (hv : s0.v = scan_init) (hreach : loop_reaches alcf ud ulen s0 s) :
    s.left ≤ NGX_HTTP_AUTH_BUF_SIZE ∧ s.buf.length = NGX_HTTP_AUTH_BUF_SIZE ∧ s.v.passwd = 0 := by
  induction hreach with
  | start => exact ⟨by omega, hbuf, by rw [hv]; rfl⟩
  | step t u _ hnext ih =>
    obtain ⟨h1, h2, h3⟩ := ih
    unfold loop_next at hnext
    split at hnext
    · rename_i data ctx1 hread
      have hle := read_auth_file_le alcf _ _ _ _ hread
      have hfit : t.left + data.length ≤ t.buf.length := by omega
      have hlen1 := write_at_length t.buf t.left data hfit
      by_cases hn : data.length = 0
      · rw [if_pos hn] at hnext; cases hnext
      · rw [if_neg hn] at hnext
        have hb := scan_chunk_bounds ud ulen (write_at t.buf t.left data) data.length t.left t.v
          ⟨by omega, fun _ => h3⟩
        split at hnext
        · cases hnext
        · rename_i j v1 hch
          rw [hch] at hb
          simp only at hb
          by_cases hs : v1.state = .sw_passwd
          · rw [if_pos hs] at hnext
            cases hnext
            refine ⟨by simp only; omega, ?_, rfl⟩
            simp only
            rw [write_at_length _ _ _ (by simp only [List.length_take, List.length_drop]; omega)]
            omega
          · rw [if_neg hs] at hnext
            cases hnext
            exact ⟨by simp only; omega, by simp only; omega, hb.2.2 hs⟩
    · cases hnext

theorem scan_switch_login (ud : List Nat) (ulen c i : Nat) (v v1 : scan_vars)
    (hj : v.state ≠ .sw_passwd → v.login ≤ ulen)
    (h : scan_switch ud ulen c i v = some v1) :
    (v1.state ≠ .sw_passwd → v1.login ≤ ulen) ∧ (v.state = .sw_passwd → v1.state = .sw_passwd) := by
  obtain ⟨st, login, p⟩ := v
  simp only at hj
  cases st with
  | sw_login =>
    have hl : login ≤ ulen := hj (by simp)
    simp only [scan_switch] at h
    refine ⟨?_, fun hh => by cases hh⟩
    split at h
    · cases h; exact fun _ => hl
    · split at h
      · cases h; exact fun _ => hl
      · split at h
        · cases h; exact fun _ => hl
        · split at h
          · cases h; exact fun hh => absurd rfl hh
          · cases h
            intro _
            simp only
            omega
  | sw_passwd =>
    simp only [scan_switch] at h
    split at h
    · cases h
    · cases h
      exact ⟨fun hh => absurd rfl hh, fun _ => rfl⟩
  | sw_skip =>
    have hl : login ≤ ulen := hj (by simp)
    simp only [scan_switch] at h
    refine ⟨?_, fun hh => by cases hh⟩
    split at h
    · cases h; exact fun _ => Nat.zero_le _
    · cases h; exact fun _ => hl

theorem scan_chunk_login (ud : List Nat) (ulen : Nat) (buf : List Nat) :
    ∀ (k i : Nat) (v : scan_vars) (j : Nat) (v1 : scan_vars),
      (v.state ≠ .sw_passwd → v.login ≤ ulen) →
      scan_chunk ud ulen buf k i v = .fell_through j v1 →
      (v1.state ≠ .sw_passwd → v1.login ≤ ulen) := by
  intro k
  induction k with
  | zero =>
    intro i v j v1 hj h
    simp only [scan_chunk, chunk_exit.fell_through.injEq] at h
    rw [← h.2]; exact hj
  | succ k ih =>
    intro i v j v1 hj h
    simp only [scan_chunk] at h
    cases hsw : scan_switch ud ulen (buf.getD i 0) i v with
    | none => rw [hsw] at h; cases h
    | some v2 =>
      rw [hsw] at h
      exact ih (i + 1) v2 j v1 (scan_switch_login ud ulen _ i v v2 hj hsw).1 h

theorem loop_reaches_login (alcf : ngx_http_auth_basic_loc_conf_t) (ud : List Nat) (ulen : Nat)
    (s0 s : loop_state) (hv : s0.v = scan_init) (hreach : loop_reaches alcf ud ulen s0 s) :
    s.v.state ≠ .sw_passwd → s.v.login ≤ ulen := by
  induction hreach with
  | start => rw [hv]; exact fun _ => Nat.zero_le _
  | step t u _ hnext ih =>
    unfold loop_next at hnext
    split at hnext
    · rename_i data ctx1 hread
      by_cases hn : data.length = 0
      · rw [if_pos hn] at hnext; cases hnext
      · rw [if_neg hn] at hnext
        split at hnext
        · cases hnext
        · rename_i j v1 hch
          have hj := scan_chunk_login ud ulen _ _ _ _ _ _ ih hch
          by_cases hs : v1.state = .sw_passwd
          · rw [if_pos hs] at hnext
            cases hnext
            exact fun hh => absurd hs hh
          · rw [if_neg hs] at hnext
            cases hnext
            exact hj
    · cases hnext

/-- C2: the username `a\nb` is the username field of no line of the store
`a\nb:x\n` (its lines are `a` and `b:x`), yet the handler matches it across
the two lines, calls the verifier with the hash `x` of user `b` and returns
`NGX_OK`. -/
theorem C2_username_with_LF_matches_across_lines :
    (ngx_http_auth_basic_handler 8
        (example_request (bytes "a\nb") (bytes "x") (.ok (example_file (bytes "a\nb:x\n") [])))
        example_conf_file example_buf).map observe
      = .ret {
          rc := NGX_OK,
          www_authenticate := none,
          log := [],
          crypt_calls := [(bytes "x", bytes "x")],
          closed := [3] } := by
  decide!

/-- C5: for the empty file `read_text_from_file` succeeds and leaves the chain
the caller provided, whose `buf` is `NULL`; the lookup over this cached chain
dereferences `NULL`, the lookup over the file itself returns 401. -/
theorem C5_empty_content_cached_lookup_faults :
    read_text_from_file 4 [] (.ok (example_file [] [])) (some { buf := none, next := [] })
        = .ret (NGX_OK, { buf := none, next := [] })
    ∧ (ngx_http_auth_basic_handler 4
          (example_request (bytes "bob") (bytes "x") (.ok (example_file [] [])))
          (example_conf_cached { buf := none, next := [] }) example_buf).map observe = .fault
    ∧ (ngx_http_auth_basic_handler 4
          (example_request (bytes "bob") (bytes "x") (.ok (example_file [] [])))
          example_conf_file example_buf).map observe
        = .ret {
            rc := NGX_HTTP_UNAUTHORIZED,
            www_authenticate := some (challenge (bytes "site")),
            log := [log_msg.user_not_found (bytes "bob") (bytes "/etc/htpasswd")],
            crypt_calls := [],
            closed := [3] } := by
  decide!

/-- C6: with the cursor at offset 2 of the single chunk `abcd`, a read of 2
bytes stores `ab`, the first bytes of the chunk, not the bytes `cd` at the
cursor; the cursor still advances to offset 4. -/
theorem C6_cached_read_ignores_offset :
    (read_auth_file (example_conf_cached { buf := none, next := [] })
        { file := example_file [] [], chain := [some (bytes "abcd")], offset := 2 } 2).map
        (fun p => (p.1, p.2.chain, p.2.offset))
      = .ret (some (bytes "ab"), [some (bytes "abcd")], 4) := by
  decide

/-- C7: when the open fails with `ENOENT`, `init_auth_file` returns 403, but the
handler drops that return code, reads from the zeroed file (descriptor 0, here
at end of file), reports the user as not found with 401 and closes
descriptor 0. -/
theorem C7_open_failure_is_not_returned :
    (init_auth_file (example_request (bytes "bob") (bytes "x") (.error NGX_ENOENT))
        example_conf_file).1 = NGX_HTTP_FORBIDDEN
    ∧ (ngx_http_auth_basic_handler 4
          (example_request (bytes "bob") (bytes "x") (.error NGX_ENOENT))
          example_conf_file example_buf).map observe
        = .ret {
            rc := NGX_HTTP_UNAUTHORIZED,
            www_authenticate := some (challenge (bytes "site")),
            log := [log_msg.open_failed NGX_ENOENT (bytes "/etc/htpasswd"),
                    log_msg.user_not_found (bytes "bob") []],
            crypt_calls := [],
            closed := [0] } := by
  decide!

/-- C8: for the username `bob` the store `bo\nbob:x\n` yields not-found, and with
the comment line `#c` inserted directly after its first LF it yields the
hash `x`. -/
theorem C8_comment_line_changes_verdict :
    lookup_verdict 4
        (example_request (bytes "bob") (bytes "x") (.ok (example_file (bytes "bo\nbob:x\n") [])))
        example_conf_file example_buf = .ret .NoSuchUser
    ∧ lookup_verdict 4
        (example_request (bytes "bob") (bytes "x") (.ok (example_file (bytes "bo\n#c\nbob:x\n") [])))
        example_conf_file example_buf = .ret (.Matched (bytes "x")) := by
  decide!

/-! ## Properties of the lookup -/

/-- C4: for a lookup over a credential file, whatever sequence of non-empty
reads delivers the bytes of the file (each read is cut to the space requested,
`2048 - left`; the sequence is the `plan` of the file, and the empty plan
delivers as much as is asked for), the read loop returns, and its verdict with
the extracted hash is the verdict of the one-chunk scanner of the
specification on the whole content, provided the hash that scanner extracts
is no longer than the working buffer. -/
theorem C4_chunk_partition_invariance (r : ngx_http_request_t)
    (alcf : ngx_http_auth_basic_loc_conf_t) (realm user passwd : List Nat) (f : ngx_file_t)
    (h : file_lookup r alcf realm user passwd f) (buf : List Nat)
    (hbuf : buf.length = NGX_HTTP_AUTH_BUF_SIZE) (fuel : Nat) (hfuel : f.content.length < fuel)
    (hfit : ∀ hash, scan_one_chunk user f.content = .Matched hash →
      hash.length ≤ NGX_HTTP_AUTH_BUF_SIZE) :
    lookup_verdict fuel r alcf buf = .ret (scan_one_chunk user f.content) := by
  obtain ⟨res, hrun, hv, _⟩ := file_lookup_run h buf hbuf fuel hfuel
  simp only [lookup_verdict, hrun, Run.map, Run.bind, hv, truncate_of_fits _ hfit]

/-- Witness of C4: the store `alice:secret\nbob:hunter2\n` delivered in reads of
1, 2, 3, 5, 1, 7 and 2 bytes and then in full. -/
theorem C4_chunk_partition_invariance_witness :
    lookup_verdict 30
        (example_request (bytes "bob") (bytes "hunter2")
          (.ok (example_file (bytes "alice:secret\nbob:hunter2\n")
            [some 1, some 2, some 3, some 5, some 1, some 7, some 2])))
        example_conf_file example_buf
      = .ret (scan_one_chunk (bytes "bob") (bytes "alice:secret\nbob:hunter2\n"))
    ∧ scan_one_chunk (bytes "bob") (bytes "alice:secret\nbob:hunter2\n")
      = .Matched (bytes "hunter2") :=
  ⟨C4_chunk_partition_invariance _ example_conf_file (bytes "site") (bytes "bob") (bytes "hunter2")
      (example_file (bytes "alice:secret\nbob:hunter2\n")
        [some 1, some 2, some 3, some 5, some 1, some 7, some 2])
      (example_file_lookup _ _ _ _ (by
        intro e he
        simp only [List.mem_cons, List.mem_singleton, List.not_mem_nil, or_false] at he
        rcases he with rfl | rfl | rfl | rfl | rfl | rfl | rfl <;> exact ⟨_, rfl, by decide⟩))
      example_buf example_buf_length 30 (by decide)
      (by
        have e : scan_one_chunk (bytes "bob") (bytes "alice:secret\nbob:hunter2\n")
            = .Matched (bytes "hunter2") := by decide
        intro hash hh
        have e2 : (example_file (bytes "alice:secret\nbob:hunter2\n")
            [some 1, some 2, some 3, some 5, some 1, some 7, some 2]).content
              = bytes "alice:secret\nbob:hunter2\n" := rfl
        rw [e2, e] at hh
        cases hh
        decide),
    by decide⟩

/-- C3 (as amended): in a lookup over a credential file that consists of lines
none of which starts with `user:` or is a non-empty leading part of `user`,
followed by `user:hash` and anything else, where `user` starts with none of
`#`, CR and LF and `hash` is free of LF, CR and `:`, ends at a byte LF, CR or `:`
or at the end of the file, and fits the working buffer: the verdict is
`Matched hash`, the hash of this first line, whatever follows it; and (the
copy of an unterminated hash being allocated) the handler returns having
called the verifier exactly once, with `hash`. -/
theorem C3_first_match_wins (r : ngx_http_request_t) (alcf : ngx_http_auth_basic_loc_conf_t)
    (realm user passwd : List Nat) (f : ngx_file_t)
    (h : file_lookup r alcf realm user passwd f) (buf : List Nat)
    (hbuf : buf.length = NGX_HTTP_AUTH_BUF_SIZE) (fuel : Nat) (hfuel : f.content.length < fuel)
    (ls : List (List Nat)) (hash tail : List Nat)
    (hstore : first_match user f.content ls hash tail)
    (halloc : (ngx_pool_alloc r.pool).1 = true) :
    lookup_verdict fuel r alcf buf = .ret (.Matched hash)
    ∧ ∃ hr, ngx_http_auth_basic_handler fuel r alcf buf = .ret hr
      ∧ hr.r.crypt_calls = r.crypt_calls ++ [(cstr (passwd ++ [0]), cstr hash)] := by
  obtain ⟨hv, ctx, pool1, _, hrun⟩ :=
    first_match_run h buf hbuf fuel hfuel ls hash tail hstore halloc
  refine ⟨hv, _, hrun, ?_⟩
  simp only [handler_cleanup]
  rw [(cleanup_keeps _ alcf ctx).1, crypt_handler_calls]
  simp [ngx_http_request_t.passwd_data, ngx_http_request_t.passwd, h.creds]

/-- C1 (as amended): in a lookup over a credential file that consists of lines
none of which starts with `user:` or is a non-empty leading part of `user`,
followed by `user:hash` and anything else, where `user` starts with none of
`#`, CR and LF and `hash` is free of LF, CR and `:`, ends at a byte LF, CR or `:`
or at the end of the file, and fits the working buffer; allocations succeed
and `ngx_crypt` on the password and `hash` (as C strings) succeeds with the
result `e`: the handler returns `NGX_OK` without a challenge when `e` equals
`hash`, and 401 with the challenge when it differs. -/
theorem C1_end_to_end_authentication (r : ngx_http_request_t)
    (alcf : ngx_http_auth_basic_loc_conf_t) (realm user passwd : List Nat) (f : ngx_file_t)
    (h : file_lookup r alcf realm user passwd f) (buf : List Nat)
    (hbuf : buf.length = NGX_HTTP_AUTH_BUF_SIZE) (fuel : Nat) (hfuel : f.content.length < fuel)
    (ls : List (List Nat)) (hash tail : List Nat)
    (hstore : first_match user f.content ls hash tail)
    (hpool : ∀ b ∈ r.pool, b = true) (e : List Nat)
    (hcrypt : r.ngx_crypt (cstr (passwd ++ [0])) (cstr hash) = some e) :
    ∃ hr, ngx_http_auth_basic_handler fuel r alcf buf = .ret hr
      ∧ (cstr e = cstr hash → hr.rc = NGX_OK ∧ hr.r.www_authenticate = r.www_authenticate)
      ∧ (cstr e ≠ cstr hash → hr.rc = NGX_HTTP_UNAUTHORIZED
          ∧ hr.r.www_authenticate = some (challenge realm)) := by
  obtain ⟨hp1, hp2⟩ := pool_alloc_ok r.pool hpool
  obtain ⟨_, ctx, pool1, hpool1, hrun⟩ :=
    first_match_run h buf hbuf fuel hfuel ls hash tail hstore hp1
  have hpd : (passwd ++ [0]) = ({ r with pool := pool1 } : ngx_http_request_t).passwd_data := by
    simp [ngx_http_request_t.passwd_data, ngx_http_request_t.passwd, h.creds]
  have hpool' : ∀ b ∈ ({ r with pool := pool1 } : ngx_http_request_t).pool, b = true := by
    rcases hpool1 with e1 | e1
    · rw [e1]; exact hpool
    · rw [e1]; exact hp2
  rw [hpd] at hcrypt
  obtain ⟨c1, c2⟩ := crypt_handler_result { r with pool := pool1 } hash realm e hcrypt hpool'
  refine ⟨_, hrun, ?_, ?_⟩
  · intro he
    obtain ⟨a, b⟩ := c1 he
    simp only [handler_cleanup]
    rw [(cleanup_keeps _ alcf ctx).2.2.1]
    exact ⟨a, b⟩
  · intro he
    obtain ⟨a, b⟩ := c2 he
    simp only [handler_cleanup]
    rw [(cleanup_keeps _ alcf ctx).2.2.1]
    exact ⟨a, b⟩

/-- Counterexample to C1 as stated: the username `\rbob` is the username field of
the one line `\rbob:x` of the store and the plain-text verifier matches the
password `x` against its hash `x`, yet the handler skips the line at its leading
CR, reports the user as not found and returns 401. -/
theorem C1_line_starting_with_CR_is_skipped :
    example_crypt (cstr (bytes "x" ++ [0])) (cstr (bytes "x")) = some (cstr (bytes "x"))
    ∧ (ngx_http_auth_basic_handler 10
          (example_request (bytes "\rbob") (bytes "x") (.ok (example_file (bytes "\rbob:x\n") [])))
          example_conf_file example_buf).map observe
        = .ret {
            rc := NGX_HTTP_UNAUTHORIZED,
            www_authenticate := some (challenge (bytes "site")),
            log := [log_msg.user_not_found (bytes "\rbob") (bytes "/etc/htpasswd")],
            crypt_calls := [],
            closed := [3] } := by
  decide!

/-- Witness of C1 (as amended): the store `alice:secret\nbob:hunter2\n`; `bob` with
the password `hunter2` is authenticated, `bob` with the password `wrong` gets
401 and the challenge. -/
theorem C1_end_to_end_authentication_witness :
    (∃ hr, ngx_http_auth_basic_handler 30
          (example_request (bytes "bob") (bytes "hunter2")
            (.ok (example_file (bytes "alice:secret\nbob:hunter2\n" ++ []) [])))
          example_conf_file example_buf = .ret hr
        ∧ (cstr (bytes "hunter2") = cstr (bytes "hunter2") →
            hr.rc = NGX_OK ∧ hr.r.www_authenticate = none)
        ∧ (cstr (bytes "hunter2") ≠ cstr (bytes "hunter2") →
            hr.rc = NGX_HTTP_UNAUTHORIZED
              ∧ hr.r.www_authenticate = some (challenge (bytes "site"))))
    ∧ (∃ hr, ngx_http_auth_basic_handler 30
          (example_request (bytes "bob") (bytes "wrong")
            (.ok (example_file (bytes "alice:secret\nbob:hunter2\n" ++ []) [])))
          example_conf_file example_buf = .ret hr
        ∧ (cstr (bytes "wrong") = cstr (bytes "hunter2") →
            hr.rc = NGX_OK ∧ hr.r.www_authenticate = none)
        ∧ (cstr (bytes "wrong") ≠ cstr (bytes "hunter2") →
            hr.rc = NGX_HTTP_UNAUTHORIZED
              ∧ hr.r.www_authenticate = some (challenge (bytes "site")))) :=
  ⟨C1_end_to_end_authentication _ example_conf_file (bytes "site") (bytes "bob") (bytes "hunter2")
      (example_file (bytes "alice:secret\nbob:hunter2\n" ++ []) [])
      (example_file_lookup _ _ _ _ (by intro e he; cases he)) example_buf example_buf_length 30
      (by decide) [bytes "alice:secret"] (bytes "hunter2") [LF] (example_first_match [])
      (by intro b hb; cases hb) (bytes "hunter2") (by decide),
   C1_end_to_end_authentication _ example_conf_file (bytes "site") (bytes "bob") (bytes "wrong")
      (example_file (bytes "alice:secret\nbob:hunter2\n" ++ []) [])
      (example_file_lookup _ _ _ _ (by intro e he; cases he)) example_buf example_buf_length 30
      (by decide) [bytes "alice:secret"] (bytes "hunter2") [LF] (example_first_match [])
      (by intro b hb; cases hb) (bytes "wrong") (by decide)⟩

/-- Counterexample to C3 as stated: the line `#bob:x` of the store starts with
`username:` for the username `#bob`, yet the scanner skips it as a comment and
the verdict is not-found. -/
theorem C3_comment_line_is_not_matched :
    starts_with (bytes "#bob" ++ [COLON]) (bytes "#bob:x")
    ∧ lookup_verdict 10
        (example_request (bytes "#bob") (bytes "x") (.ok (example_file (bytes "#bob:x\n") [])))
        example_conf_file example_buf = .ret .NoSuchUser :=
  ⟨⟨bytes "x", by decide⟩, by decide!⟩

/-- Witness of C3 (as amended): in the store
`alice:secret\nbob:hunter2\nbob:other\n` the first line of `bob` gives the hash
`hunter2`; the later line `bob:other` is not consulted. -/
theorem C3_first_match_wins_witness :
    lookup_verdict 40
        (example_request (bytes "bob") (bytes "hunter2")
          (.ok (example_file (bytes "alice:secret\nbob:hunter2\n" ++ bytes "bob:other\n") [])))
        example_conf_file example_buf = .ret (.Matched (bytes "hunter2"))
    ∧ ∃ hr, ngx_http_auth_basic_handler 40
          (example_request (bytes "bob") (bytes "hunter2")
            (.ok (example_file (bytes "alice:secret\nbob:hunter2\n" ++ bytes "bob:other\n") [])))
          example_conf_file example_buf = .ret hr
        ∧ hr.r.crypt_calls = [] ++ [(cstr (bytes "hunter2" ++ [0]), cstr (bytes "hunter2"))] :=
  C3_first_match_wins _ example_conf_file (bytes "site") (bytes "bob") (bytes "hunter2")
    (example_file (bytes "alice:secret\nbob:hunter2\n" ++ bytes "bob:other\n") [])
    (example_file_lookup _ _ _ _ (by intro e he; cases he)) example_buf example_buf_length 40
    (by decide) [bytes "alice:secret"] (bytes "hunter2") (LF :: bytes "bob:other\n")
    (example_first_match (bytes "bob:other\n")) rfl

/-! ## Verifier, challenge, configuration and cleanup -/

/-- C12: when its two allocations succeed, `ngx_http_auth_basic_set_realm` returns
401 and sets the header `WWW-Authenticate` (with `hash` 1) to exactly the bytes
`Basic realm="`, the realm bytes verbatim, and `"`; the value is `realm` length
plus 14 bytes long. -/
theorem C12_challenge_form (r : ngx_http_request_t) (realm : List Nat)
    (halloc : challenge_allocs r.pool = true) :
    (ngx_http_auth_basic_set_realm r realm).1 = NGX_HTTP_UNAUTHORIZED
    ∧ ∃ elt, (ngx_http_auth_basic_set_realm r realm).2.www_authenticate = some elt
      ∧ (ngx_http_auth_basic_set_realm r realm).2.headers = r.headers ++ [elt]
      ∧ elt.hash = 1
      ∧ elt.key = bytes "WWW-Authenticate"
      ∧ elt.value = bytes "Basic realm=\"" ++ realm ++ bytes "\""
      ∧ elt.value.length = realm.length + 14 := by
  obtain ⟨h1, h2, h3⟩ := (set_realm_result r realm).1 halloc
  refine ⟨h1, challenge realm, h2, h3, rfl, rfl, rfl, ?_⟩
  have e1 : (bytes "Basic realm=\"").length = 13 := by decide
  have e2 : (bytes "\"").length = 1 := by decide
  simp only [challenge, List.length_append, e1, e2]
  omega

/-- Witness of C12: the realm `site` gives the value `Basic realm="site"` of 18
bytes. -/
theorem C12_challenge_form_witness :
    (ngx_http_auth_basic_set_realm
        (example_request (bytes "bob") (bytes "x") (.ok (example_file [] []))) (bytes "site")).1
      = NGX_HTTP_UNAUTHORIZED
    ∧ ∃ elt, (ngx_http_auth_basic_set_realm
          (example_request (bytes "bob") (bytes "x") (.ok (example_file [] [])))
          (bytes "site")).2.www_authenticate = some elt
      ∧ (ngx_http_auth_basic_set_realm
          (example_request (bytes "bob") (bytes "x") (.ok (example_file [] [])))
          (bytes "site")).2.headers = [] ++ [elt]
      ∧ elt.hash = 1
      ∧ elt.key = bytes "WWW-Authenticate"
      ∧ elt.value = bytes "Basic realm=\"" ++ bytes "site" ++ bytes "\""
      ∧ elt.value.length = (bytes "site").length + 14 :=
  C12_challenge_form _ (bytes "site") (by decide)

/-- Counterexample to C11 as stated: the verifier succeeds with a result (`wrong`)
that differs from the stored hash (`hunter2`), but the first allocation of the
challenge fails; the function returns 500 with no challenge header, not 401. -/
theorem C11_mismatch_with_failed_allocation :
    example_crypt (cstr (bytes "wrong" ++ [0])) (cstr (bytes "hunter2")) = some (bytes "wrong")
    ∧ cstr (bytes "wrong") ≠ cstr (bytes "hunter2")
    ∧ (ngx_http_auth_basic_crypt_handler
        { example_request (bytes "bob") (bytes "wrong") (.ok (example_file [] [])) with
          pool := [false] }
        (bytes "hunter2") (bytes "site")).1 = NGX_HTTP_INTERNAL_SERVER_ERROR
    ∧ (ngx_http_auth_basic_crypt_handler
        { example_request (bytes "bob") (bytes "wrong") (.ok (example_file [] [])) with
          pool := [false] }
        (bytes "hunter2") (bytes "site")).2.www_authenticate = none := by
  decide

/-- C11 (as amended): `ngx_http_auth_basic_crypt_handler` returns `NGX_OK` iff
`ngx_crypt` succeeds and its result equals the stored hash (as C strings); it
returns 401 iff `ngx_crypt` succeeds, the result differs and the two
allocations of the challenge succeed, and then the challenge header is set and
the mismatch is logged; when `ngx_crypt` fails it returns 500 and leaves the
headers and the log as they were (no challenge, no "password mismatch"); when
the result differs and an allocation of the challenge fails it returns 500
with no challenge header. -/
theorem C11_verifier_verdict_mapping (r : ngx_http_request_t) (passwd_data realm : List Nat) :
    ((ngx_http_auth_basic_crypt_handler r passwd_data realm).1 = NGX_OK ↔
        ∃ e, r.ngx_crypt (cstr r.passwd_data) (cstr passwd_data) = some e
          ∧ cstr e = cstr passwd_data)
    ∧ ((ngx_http_auth_basic_crypt_handler r passwd_data realm).1 = NGX_HTTP_UNAUTHORIZED ↔
        ∃ e, r.ngx_crypt (cstr r.passwd_data) (cstr passwd_data) = some e
          ∧ cstr e ≠ cstr passwd_data ∧ challenge_allocs r.pool = true)
    ∧ ((ngx_http_auth_basic_crypt_handler r passwd_data realm).1 = NGX_HTTP_UNAUTHORIZED →
        (ngx_http_auth_basic_crypt_handler r passwd_data realm).2.www_authenticate
            = some (challenge realm)
        ∧ (ngx_http_auth_basic_crypt_handler r passwd_data realm).2.log
            = r.log ++ [log_msg.password_mismatch r.user])
    ∧ (r.ngx_crypt (cstr r.passwd_data) (cstr passwd_data) = none →
        (ngx_http_auth_basic_crypt_handler r passwd_data realm).1
            = NGX_HTTP_INTERNAL_SERVER_ERROR
        ∧ (ngx_http_auth_basic_crypt_handler r passwd_data realm).2.headers = r.headers
        ∧ (ngx_http_auth_basic_crypt_handler r passwd_data realm).2.www_authenticate
            = r.www_authenticate
        ∧ (ngx_http_auth_basic_crypt_handler r passwd_data realm).2.log = r.log)
    ∧ (∀ e, r.ngx_crypt (cstr r.passwd_data) (cstr passwd_data) = some e →
        cstr e ≠ cstr passwd_data → challenge_allocs r.pool = false →
        (ngx_http_auth_basic_crypt_handler r passwd_data realm).1
            = NGX_HTTP_INTERNAL_SERVER_ERROR
        ∧ (ngx_http_auth_basic_crypt_handler r passwd_data realm).2.www_authenticate = none) := by
  obtain ⟨d1, d2, d3, _⟩ := return_codes_distinct
  cases hc : r.ngx_crypt (cstr r.passwd_data) (cstr passwd_data) with
  | none =>
    have hres : ngx_http_auth_basic_crypt_handler r passwd_data realm
        = (NGX_HTTP_INTERNAL_SERVER_ERROR,
            { r with crypt_calls := r.crypt_calls ++ [(cstr r.passwd_data, cstr passwd_data)] }) := by
      unfold ngx_http_auth_basic_crypt_handler
      simp only [hc]
    rw [hres]
    refine ⟨⟨fun h => absurd h.symm d2, fun ⟨_, h, _⟩ => (by cases h)⟩,
      ⟨fun h => absurd h.symm d3, fun ⟨_, h, _⟩ => (by cases h)⟩,
      fun h => absurd h.symm d3, fun _ => ⟨rfl, rfl, rfl, rfl⟩, fun e h => (by cases h)⟩
  | some e =>
    by_cases he : cstr e = cstr passwd_data
    · have hres : ngx_http_auth_basic_crypt_handler r passwd_data realm
          = (NGX_OK,
              { r with crypt_calls := r.crypt_calls ++ [(cstr r.passwd_data, cstr passwd_data)] }) := by
        unfold ngx_http_auth_basic_crypt_handler
        simp only [hc, he, if_true]
      rw [hres]
      refine ⟨⟨fun _ => ⟨e, rfl, he⟩, fun _ => rfl⟩,
        ⟨fun h => absurd h d1, fun ⟨e', h1, h2, _⟩ => ?_⟩,
        fun h => absurd h d1, fun h => (by cases h), fun e' h1 h2 _ => ?_⟩
      · cases h1; exact absurd he h2
      · cases h1; exact absurd he h2
    · have hres : ngx_http_auth_basic_crypt_handler r passwd_data realm
          = ngx_http_auth_basic_set_realm
              { r with crypt_calls := r.crypt_calls ++ [(cstr r.passwd_data, cstr passwd_data)],
                       log := r.log ++ [log_msg.password_mismatch r.user] } realm := by
        unfold ngx_http_auth_basic_crypt_handler
        simp only [hc, he, if_false]
      rw [hres]
      obtain ⟨s1, s2⟩ := set_realm_result
        { r with crypt_calls := r.crypt_calls ++ [(cstr r.passwd_data, cstr passwd_data)],
                 log := r.log ++ [log_msg.password_mismatch r.user] } realm
      have hlog := (set_realm_keeps
        { r with crypt_calls := r.crypt_calls ++ [(cstr r.passwd_data, cstr passwd_data)],
                 log := r.log ++ [log_msg.password_mismatch r.user] } realm).1
      cases ha : challenge_allocs r.pool with
      | true =>
        obtain ⟨a1, a2, _⟩ := s1 ha
        rw [a1]
        refine ⟨⟨fun h => absurd h.symm d1, fun ⟨e', h1, h2⟩ => ?_⟩,
          ⟨fun _ => ⟨e, rfl, he, rfl⟩, fun _ => rfl⟩, fun _ => ⟨a2, hlog⟩, fun h => (by cases h),
          fun e' _ _ h => (by cases h)⟩
        cases h1; exact absurd h2 he
      | false =>
        obtain ⟨a1, a2, _⟩ := s2 ha
        rw [a1]
        refine ⟨⟨fun h => absurd h.symm d2, fun ⟨e', h1, h2⟩ => ?_⟩,
          ⟨fun h => absurd h.symm d3, fun ⟨_, _, _, h⟩ => (by cases h)⟩,
          fun h => absurd h.symm d3, fun h => (by cases h), fun e' _ _ _ => ⟨rfl, a2⟩⟩
        cases h1; exact absurd h2 he

/-- C16: the handler returns `NGX_DECLINED`, leaving the request (its headers, log,
pool, descriptors and verifier calls) and the working buffer untouched, when no
realm is configured, or no credential file is configured, or the realm
evaluates to exactly the bytes `off`; and whenever it returns `NGX_DECLINED`
one of these three holds, so for any other realm that evaluates successfully
with a credential file configured it does not decline. -/
theorem C16_declining (fuel : Nat) (r : ngx_http_request_t)
    (alcf : ngx_http_auth_basic_loc_conf_t) (buf : List Nat) :
    ((alcf.realm = none ∨ alcf.user_file.value = none
        ∨ ∃ rv, alcf.realm = some rv ∧ ngx_http_complex_value r rv = some (bytes "off")) →
      ngx_http_auth_basic_handler fuel r alcf buf = .ret { rc := NGX_DECLINED, r := r, buf := buf })
    ∧ ∀ h, ngx_http_auth_basic_handler fuel r alcf buf = .ret h → h.rc = NGX_DECLINED →
        (alcf.realm = none ∨ alcf.user_file.value = none
          ∨ ∃ rv, alcf.realm = some rv ∧ ngx_http_complex_value r rv = some (bytes "off")) := by
  obtain ⟨_, _, _, d4, d5, d6, d7⟩ := return_codes_distinct
  constructor
  · intro h
    unfold ngx_http_auth_basic_handler
    rcases h with h | h | ⟨rv, h1, h2⟩
    · rw [h]
    · rw [h]
      cases alcf.realm <;> rfl
    · rw [h1]
      cases alcf.user_file.value with
      | none => rfl
      | some v =>
        simp only [h2]
        rw [if_pos (by decide)]
  · intro h hrun hrc
    unfold ngx_http_auth_basic_handler at hrun
    cases hrv : alcf.realm with
    | none => exact Or.inl rfl
    | some rv =>
      cases hv : alcf.user_file.value with
      | none => exact Or.inr (Or.inl rfl)
      | some v =>
        right; right
        refine ⟨rv, rfl, ?_⟩
        rw [hrv, hv] at hrun
        simp only at hrun
        cases hre : ngx_http_complex_value r rv with
        | none =>
          rw [hre] at hrun
          simp only [Run.ret.injEq] at hrun
          subst hrun
          exact absurd hrc.symm d7
        | some realm =>
          rw [hre] at hrun
          simp only at hrun
          by_cases hoff : realm.length = 3 ∧ realm.take 3 = bytes "off"
          · rw [(realm_is_off realm).1 hoff]
          · exfalso
            rw [if_neg hoff] at hrun
            cases hu : r.auth_basic_user with
            | declined =>
              rw [hu] at hrun
              simp only [Run.ret.injEq] at hrun
              subst hrun
              simp only at hrc
              exact set_realm_not_declined _ _ hrc
            | error =>
              rw [hu] at hrun
              simp only [Run.ret.injEq] at hrun
              subst hrun
              exact d6 hrc.symm
            | ok user passwd =>
              rw [hu] at hrun
              simp only at hrun
              split at hrun
              · cases hrun
              · cases hrun
              · rename_i res _
                simp only [Run.ret.injEq] at hrun
                subst hrun
                rcases handler_finish_rc (init_auth_file r alcf).2.1 alcf realm res
                  with e | e | e
                · rw [e] at hrc; exact d4 hrc.symm
                · rw [e] at hrc; exact d5 hrc.symm
                · rw [e] at hrc; exact d6 hrc.symm

/-- C13: the store `zed:zpass` ends in the password state; when the allocation of
the copy (`ngx_pnalloc`, line 423) fails, the handler returns 500 directly: the
credential file (descriptor 3) is not closed and the working buffer still
starts with the hash `zpass`.  With the allocation succeeding the same lookup
closes descriptor 3 and leaves the buffer all zero. -/
theorem C13_allocation_failure_skips_cleanup :
    (ngx_http_auth_basic_handler 12
        { example_request (bytes "zed") (bytes "zpass") (.ok (example_file (bytes "zed:zpass") []))
          with pool := [false] }
        example_conf_file example_buf).map (fun h => (h.rc, h.r.closed, h.buf.take 5))
      = .ret (NGX_HTTP_INTERNAL_SERVER_ERROR, [], bytes "zpass")
    ∧ (ngx_http_auth_basic_handler 12
        (example_request (bytes "zed") (bytes "zpass") (.ok (example_file (bytes "zed:zpass") [])))
        example_conf_file example_buf).map (fun h => (h.rc, h.r.closed, h.buf.all (fun c => c == 0)))
      = .ret (NGX_OK, [3], true) := by
  decide!

/-- C14: merging a location whose static credential file is empty succeeds and
leaves the cache link with a `NULL` buffer; a lookup in that location
dereferences it, while the file-backed lookup over the same empty file returns
401 with the challenge. -/
theorem C14_empty_store_cached_lookup_faults :
    ∃ conf,
      ngx_http_auth_basic_merge_loc_conf 4 [] (.ok (example_file [] [])) zeroed_conf
          (example_conf_cached { buf := none, next := [] }) = .ret (some conf)
      ∧ conf.cache = { buf := none, next := [] }
      ∧ (ngx_http_auth_basic_handler 4
          (example_request (bytes "alice") (bytes "secret") (.ok (example_file [] [])))
          conf example_buf).map observe = .fault
      ∧ (ngx_http_auth_basic_handler 4
          (example_request (bytes "alice") (bytes "secret") (.ok (example_file [] [])))
          example_conf_file example_buf).map (fun h => (h.rc, h.r.www_authenticate))
        = .ret (NGX_HTTP_UNAUTHORIZED, some (challenge (bytes "site"))) :=
  ⟨_, rfl, rfl, by decide!, by decide!⟩

/-- C17: the parent location has the static credential file `bob:x\n` loaded into
its cache by the merge and authenticates `bob`; a child location that
inherits the path is merged successfully but its cache stays the zeroed link
(the inherited branch neither copies the parent's cache nor loads the file),
and a lookup in the child dereferences the `NULL` buffer. -/
theorem C17_inherited_file_has_no_cache :
    ∃ parent child,
      ngx_http_auth_basic_merge_loc_conf 4 [] (.ok (example_file (bytes "bob:x\n") [])) zeroed_conf
          (example_conf_cached { buf := none, next := [] }) = .ret (some parent)
      ∧ parent.cache = { buf := some (bytes "bob:x\n"), next := [] }
      ∧ ngx_http_auth_basic_merge_loc_conf 4 [] (.ok (example_file (bytes "bob:x\n") [])) parent
          zeroed_conf = .ret (some child)
      ∧ child.user_file.value = some (bytes "/etc/htpasswd")
      ∧ child.user_file.lengths = none
      ∧ child.cache = { buf := none, next := [] }
      ∧ (ngx_http_auth_basic_handler 4
          (example_request (bytes "bob") (bytes "x") (.ok (example_file (bytes "bob:x\n") [])))
          parent example_buf).map (fun h => h.rc) = .ret NGX_OK
      ∧ (ngx_http_auth_basic_handler 4
          (example_request (bytes "bob") (bytes "x") (.ok (example_file (bytes "bob:x\n") [])))
          child example_buf).map (fun h => h.rc) = .fault :=
  ⟨_, _, rfl, rfl, rfl, rfl, rfl, rfl, by decide!, by decide!⟩

/-! ## Truncation, bounds and cache loading -/

/-- C18: in a lookup over a credential file, when the first line that the line
scanner matches has a password field `field` longer than the working buffer
(the one-chunk scanner, which has no bound, yields `Matched field` with more
than 2048 bytes), the read loop returns, with neither a read error nor
not-found: its verdict is `Matched` of the first 2048 bytes of `field`, a
proper leading part of it, whatever sequence of non-empty reads delivers the
file. -/
theorem C18_over_long_line_truncation (r : ngx_http_request_t)
    (alcf : ngx_http_auth_basic_loc_conf_t) (realm user passwd : List Nat) (f : ngx_file_t)
    (h : file_lookup r alcf realm user passwd f) (buf : List Nat)
    (hbuf : buf.length = NGX_HTTP_AUTH_BUF_SIZE) (fuel : Nat) (hfuel : f.content.length < fuel)
    (field : List Nat) (hmatch : scan_one_chunk user f.content = .Matched field)
    (hlong : NGX_HTTP_AUTH_BUF_SIZE < field.length) :
    lookup_verdict fuel r alcf buf = .ret (.Matched (field.take NGX_HTTP_AUTH_BUF_SIZE))
    ∧ (field.take NGX_HTTP_AUTH_BUF_SIZE).length = NGX_HTTP_AUTH_BUF_SIZE
    ∧ ∃ rest, rest ≠ [] ∧ field = field.take NGX_HTTP_AUTH_BUF_SIZE ++ rest := by
  obtain ⟨res, hrun, hv, _⟩ := file_lookup_run h buf hbuf fuel hfuel
  refine ⟨?_, ?_, field.drop NGX_HTTP_AUTH_BUF_SIZE, ?_, (List.take_append_drop _ _).symm⟩
  · simp only [lookup_verdict, hrun, Run.map, Run.bind, hv, hmatch, Verdict.truncate]
  · rw [List.length_take]; omega
  · intro hnil
    have := congrArg List.length hnil
    simp only [List.length_drop, List.length_nil] at this
    omega

/-- Witness of C18: the store `bob:` followed by 2050 bytes `a` and LF, delivered
in reads of 1000 and 7 bytes and then in full: the verdict is the first 2048
bytes. -/
theorem C18_over_long_line_truncation_witness :
    lookup_verdict 3000
        (example_request (bytes "bob") (bytes "x")
          (.ok (example_file (bytes "bob:" ++ (example_long_field ++ [LF]))
            [some 1000, some 7])))
        example_conf_file example_buf
      = .ret (.Matched (example_long_field.take NGX_HTTP_AUTH_BUF_SIZE))
    ∧ (example_long_field.take NGX_HTTP_AUTH_BUF_SIZE).length = NGX_HTTP_AUTH_BUF_SIZE
    ∧ ∃ rest, rest ≠ []
        ∧ example_long_field = example_long_field.take NGX_HTTP_AUTH_BUF_SIZE ++ rest :=
  C18_over_long_line_truncation _ example_conf_file (bytes "site") (bytes "bob") (bytes "x")
    (example_file (bytes "bob:" ++ (example_long_field ++ [LF])) [some 1000, some 7])
    (example_file_lookup _ _ _ _ (by
      intro e he
      simp only [List.mem_cons, List.mem_singleton, List.not_mem_nil, or_false] at he
      rcases he with rfl | rfl <;> exact ⟨_, rfl, by decide⟩))
    example_buf example_buf_length 3000
    (by
      have e : (bytes "bob:").length = 4 := by decide
      simp only [example_file, List.length_append, e, example_long_field_length,
        List.length_singleton]
      decide)
    example_long_field example_long_store
    (by rw [example_long_field_length]; decide)

/-- C19: at the top of every iteration of the read loop that the handler starts
with `left = 0` and a 2048-byte buffer, over either backend in any state,
`left` is at most 2048 (so `2048 - left` does not underflow), the buffer is
2048 bytes long and `passwd` is 0 (so `i - passwd` after the loop does not
underflow).  For every read that returns data, `left + n` is at most 2048 and
the buffer keeps its length; the inner loop depends on the buffer only at the
indices from `left` up to `left + n`; when the password field ends at index
`i`, then `left <= i < left + n` and `passwd <= i`; and when the inner loop runs
to its end, it ends at `left + n` with `passwd <= left + n`. -/
theorem C19_buffer_bounds (alcf : ngx_http_auth_basic_loc_conf_t) (ud : List Nat) (ulen : Nat)
    (s0 s : loop_state) (hbuf : s0.buf.length = NGX_HTTP_AUTH_BUF_SIZE) (hleft : s0.left = 0)
    (hv : s0.v = scan_init) (hreach : loop_reaches alcf ud ulen s0 s) :
    s.left ≤ NGX_HTTP_AUTH_BUF_SIZE ∧ s.buf.length = NGX_HTTP_AUTH_BUF_SIZE ∧ s.v.passwd = 0
    ∧ ∀ data ctx1,
        read_auth_file alcf s.ctx (NGX_HTTP_AUTH_BUF_SIZE - s.left) = .ret (some data, ctx1) →
        s.left + data.length ≤ NGX_HTTP_AUTH_BUF_SIZE
        ∧ (write_at s.buf s.left data).length = NGX_HTTP_AUTH_BUF_SIZE
        ∧ (∀ buf1 : List Nat,
            (∀ j, s.left ≤ j → j < s.left + data.length →
              buf1.getD j 0 = (write_at s.buf s.left data).getD j 0) →
            scan_chunk ud ulen buf1 data.length s.left s.v
              = scan_chunk ud ulen (write_at s.buf s.left data) data.length s.left s.v)
        ∧ match scan_chunk ud ulen (write_at s.buf s.left data) data.length s.left s.v with
          | .found i passwd => s.left ≤ i ∧ i < s.left + data.length ∧ passwd ≤ i
          | .fell_through i v1 =>
            i = s.left + data.length ∧ v1.passwd ≤ s.left + data.length := by
  obtain ⟨h1, h2, h3⟩ := loop_reaches_bounds alcf ud ulen s0 s hbuf hleft hv hreach
  refine ⟨h1, h2, h3, ?_⟩
  intro data ctx1 hread
  have hle := read_auth_file_le alcf _ _ _ _ hread
  have hfit : s.left + data.length ≤ s.buf.length := by omega
  refine ⟨by omega, by rw [write_at_length s.buf s.left data hfit, h2], ?_, ?_⟩
  · intro buf1 hb
    exact scan_chunk_ext ud ulen _ buf1 data.length s.left s.v hb
  · have hb := scan_chunk_bounds ud ulen (write_at s.buf s.left data) data.length s.left s.v
      ⟨by omega, fun _ => h3⟩
    cases hch : scan_chunk ud ulen (write_at s.buf s.left data) data.length s.left s.v with
    | found i p =>
      rw [hch] at hb
      exact hb
    | fell_through i v1 =>
      rw [hch] at hb
      exact ⟨hb.1, hb.2.1⟩

/-- Witness of C19: the second iteration of the lookup of `zed` over the store
`zed:zpass`, whose first read delivers 5 bytes. -/
theorem C19_buffer_bounds_witness :
    ((loop_next example_conf_file (bytes "zed:zpass" ++ [0]) 3
        (example_loop_start (bytes "zed:zpass") [some 5])).getD
      (example_loop_start (bytes "zed:zpass") [some 5])).left = 1
    ∧ (((loop_next example_conf_file (bytes "zed:zpass" ++ [0]) 3
          (example_loop_start (bytes "zed:zpass") [some 5])).getD
        (example_loop_start (bytes "zed:zpass") [some 5])).left ≤ NGX_HTTP_AUTH_BUF_SIZE
      ∧ ((loop_next example_conf_file (bytes "zed:zpass" ++ [0]) 3
          (example_loop_start (bytes "zed:zpass") [some 5])).getD
        (example_loop_start (bytes "zed:zpass") [some 5])).buf.length = NGX_HTTP_AUTH_BUF_SIZE
      ∧ ((loop_next example_conf_file (bytes "zed:zpass" ++ [0]) 3
          (example_loop_start (bytes "zed:zpass") [some 5])).getD
        (example_loop_start (bytes "zed:zpass") [some 5])).v.passwd = 0) :=
  ⟨by decide!,
    let h := C19_buffer_bounds example_conf_file (bytes "zed:zpass" ++ [0]) 3
      (example_loop_start (bytes "zed:zpass") [some 5])
      ((loop_next example_conf_file (bytes "zed:zpass" ++ [0]) 3
        (example_loop_start (bytes "zed:zpass") [some 5])).getD
        (example_loop_start (bytes "zed:zpass") [some 5]))
      example_buf_length rfl rfl (loop_reaches_next _ _ _ _)
    ⟨h.1, h.2.1, h.2.2.1⟩⟩

/-- C20: in the read loop the handler starts, at the top of every iteration and
after every byte of every chunk: when the state is `sw_login` (or `sw_skip`),
`login` is at most the username length, so `user.data[login]` is a byte of the
username or the delimiter `:` stored directly after it; `login` exceeds the
username length only in the state `sw_passwd`; and a pass through the switch
in the state `sw_passwd` that does not end the scan stays in `sw_passwd`. -/
theorem C20_username_index_invariant (alcf : ngx_http_auth_basic_loc_conf_t)
    (user rest : List Nat) (s0 s : loop_state) (hv : s0.v = scan_init)
    (hreach : loop_reaches alcf (user ++ COLON :: rest) user.length s0 s) :
    (s.v.state ≠ .sw_passwd → s.v.login ≤ user.length)
    ∧ (∀ (buf : List Nat) (m j : Nat) (v1 : scan_vars),
        scan_chunk (user ++ COLON :: rest) user.length buf m s.left s.v = .fell_through j v1 →
        (v1.state = .sw_login → v1.login ≤ user.length
          ∧ (user ++ COLON :: rest).getD v1.login 0 = (user ++ [COLON]).getD v1.login 0
          ∧ v1.login < (user ++ [COLON]).length)
        ∧ (user.length < v1.login → v1.state = .sw_passwd))
    ∧ ∀ (c i : Nat) (v v1 : scan_vars), v.state = .sw_passwd →
        scan_switch (user ++ COLON :: rest) user.length c i v = some v1 →
        v1.state = .sw_passwd := by
  have h0 := loop_reaches_login alcf _ _ s0 s hv hreach
  refine ⟨h0, ?_, ?_⟩
  · intro buf m j v1 hch
    have hj := scan_chunk_login _ _ buf m s.left s.v j v1 h0 hch
    constructor
    · intro hs
      have hl : v1.login ≤ user.length := hj (by rw [hs]; simp)
      exact ⟨hl, user_data_getD user rest v1.login hl, by simp; omega⟩
    · intro hlt
      by_contra hns
      have := hj hns
      omega
  · intro c i v v1 hs hsw
    obtain ⟨st, login, p⟩ := v
    simp only at hs
    subst hs
    simp only [scan_switch] at hsw
    split at hsw
    · cases hsw
    · cases hsw; rfl

/-- Witness of C20: the second iteration of the lookup of `zed` over the store
`zed:zpass`, whose first read delivers 2 bytes: the state is `sw_login` with
`login = 2`. -/
theorem C20_username_index_invariant_witness :
    ((loop_next example_conf_file (bytes "zed" ++ COLON :: (bytes "zpass" ++ [0]))
        (bytes "zed").length (example_loop_start (bytes "zed:zpass") [some 2])).getD
      (example_loop_start (bytes "zed:zpass") [some 2])).v
        = { state := .sw_login, login := 2, passwd := 0 }
    ∧ (((loop_next example_conf_file (bytes "zed" ++ COLON :: (bytes "zpass" ++ [0]))
          (bytes "zed").length (example_loop_start (bytes "zed:zpass") [some 2])).getD
        (example_loop_start (bytes "zed:zpass") [some 2])).v.state ≠ .sw_passwd →
      ((loop_next example_conf_file (bytes "zed" ++ COLON :: (bytes "zpass" ++ [0]))
          (bytes "zed").length (example_loop_start (bytes "zed:zpass") [some 2])).getD
        (example_loop_start (bytes "zed:zpass") [some 2])).v.login ≤ (bytes "zed").length) :=
  ⟨by decide!,
    (C20_username_index_invariant example_conf_file (bytes "zed") (bytes "zpass" ++ [0])
      (example_loop_start (bytes "zed:zpass") [some 2])
      ((loop_next example_conf_file (bytes "zed" ++ COLON :: (bytes "zpass" ++ [0]))
        (bytes "zed").length (example_loop_start (bytes "zed:zpass") [some 2])).getD
        (example_loop_start (bytes "zed:zpass") [some 2]))
      rfl (loop_reaches_next _ _ _ _)).1⟩

end AuthBasic
